import Mathlib

/-!
Verification of the snapshot garbage collector (snapshot_gc.hpp,
journal_catalog.hpp, snapshot_gc_types.hpp, snapshot_gc_interfaces.hpp,
filesystem_storage.hpp).

Shallow embedding conventions:
* `TimePoint` (std::chrono::system_clock::time_point) is modelled as `Int`,
  milliseconds since the Unix epoch — the granularity of the journal wire
  format.  Durations (std::chrono::hours / seconds) are likewise `Int`
  milliseconds.
* All calls to `Clock::now()` within a single GC pass are modelled as one
  fixed value `now` (the pass is short; no claim depends on time advancing
  inside a pass).
* `std::uint32_t` / `std::uint64_t` counters are modelled as `Nat`; no claim
  exercises wrap-around (quarantine fires at `maxDeleteFailuresBeforeQuarantine`,
  default 5, long before 2^32).
* `std::unordered_map<std::string, SnapshotMeta>` is modelled as an
  association list with replace-or-append insertion; iteration order of the
  C++ container is unspecified, the list order is one refinement of it.
* `std::unordered_set<std::string> tags` is modelled as a `List String`
  (`tags.count(x)` becomes `tags.contains x`).
* Virtual collaborators (`IStorageBackend`, `ILeaderElector`,
  `ICorruptionTracker`) are modelled by values: the storage backend is a
  function `List String → Bool × List String × String` giving
  (allOk, failed, err) for a batch, the elector by two booleans
  (present / TryAcquire result), the corruption tracker by a presence flag
  plus a call trace.
-/

/-- Milliseconds since the Unix epoch (model of `TimePoint`). -/
abbrev TimePoint := Int

/-- `enum class SnapshotState` from snapshot_gc_types.hpp. -/
inductive SnapshotState where
  | Active
  | Tombstoned
  | Deleting
  | Deleted
  | Quarantined
deriving DecidableEq, Repr

/-- The integer value of a state on the journal wire format
(`(int)m.state` in C++): Active=0, Tombstoned=1, Deleting=2, Deleted=3,
Quarantined=4. -/
def stateToInt : SnapshotState → Nat
  | .Active => 0
  | .Tombstoned => 1
  | .Deleting => 2
  | .Deleted => 3
  | .Quarantined => 4

/-- Inverse of `stateToInt`, modelling the C++ cast `(SnapshotState)i`.
The catalog only ever writes 0‑4; for any other integer the C++ cast would
produce an out-of-range enum value, which we collapse to `Active`
(never reached by the journal's own output). -/
def stateOfInt (i : Int) : SnapshotState :=
  if i = 0 then .Active
  else if i = 1 then .Tombstoned
  else if i = 2 then .Deleting
  else if i = 3 then .Deleted
  else if i = 4 then .Quarantined
  else .Active

/-- `struct SnapshotMeta` from snapshot_gc_types.hpp. -/
structure SnapshotMeta where
  id : String
  created : TimePoint := 0
  sizeBytes : Nat := 0
  state : SnapshotState := .Active
  parentId : Option String := none
  tags : List String := []
  leaseCount : Nat := 0
  lastAccess : TimePoint := 0
  hardDeleteAfter : Option TimePoint := none
  deleteFailures : Nat := 0
  nextRetryAfter : Option TimePoint := none
  lastError : String := ""
deriving DecidableEq, Repr

/-- `struct RetentionPolicy` (fields consumed by the GC core). -/
structure RetentionPolicy where
  keepLastN : Nat := 10
  maxAge : Int := 720 * 3600 * 1000
deriving DecidableEq, Repr

/-- `struct GCOptions`. Durations are milliseconds. -/
structure GCOptions where
  dryRun : Bool := false
  enableTombstoneStage : Bool := true
  enableHardDeleteStage : Bool := true
  inactiveTimeout : Int := 7 * 24 * 3600 * 1000
  gracePeriod : Int := 7 * 24 * 3600 * 1000
  maxDeletesPerRun : Nat := 1000
  batchDeleteSize : Nat := 50
  maxDeleteFailuresBeforeQuarantine : Nat := 5
  baseRetryBackoff : Int := 10 * 1000
deriving DecidableEq, Repr

/-- `struct GCEvent` from snapshot_gc_interfaces.hpp. -/
structure GCEvent where
  when : TimePoint
  snapshotId : String
  type : String
  details : String
deriving DecidableEq, Repr

/-- `struct GCMetrics` from snapshot_gc.hpp. -/
structure GCMetrics where
  scanned : Nat := 0
  tombstoned : Nat := 0
  deleted : Nat := 0
  quarantined : Nat := 0
  deleteFailed : Nat := 0
  inactiveLoadedSignals : Nat := 0
deriving DecidableEq, Repr

/-- Lookup in the association-list model of
`std::unordered_map<std::string, SnapshotMeta>`. -/
def lookupItem (items : List (String × SnapshotMeta)) (id : String) :
    Option SnapshotMeta :=
  match items with
  | [] => none
  | (k, v) :: rest => if k = id then some v else lookupItem rest id

/-- `items_[id] = m`: replace the binding if the key is present, otherwise
append a new one. -/
def insertItem (items : List (String × SnapshotMeta)) (id : String)
    (m : SnapshotMeta) : List (String × SnapshotMeta) :=
  match items with
  | [] => [(id, m)]
  | (k, v) :: rest =>
      if k = id then (k, m) :: rest else (k, v) :: insertItem rest id m

namespace MemCatalog

/-!
In-memory semantics of `JournalCatalog` (the reference `ISnapshotCatalog`
implementation) as seen by the GC engine: the `items_` map plus the stream
of `RecordEvent` calls (the `EVENT` journal lines, kept as structured
events here; the wire encoding is verified separately in the
`JournalCatalog` namespace below).
-/

/-- Engine-visible catalog state: the record map and the audit-event
stream. -/
structure CatalogState where
  items : List (String × SnapshotMeta)
  events : List GCEvent
deriving Repr

/-- `JournalCatalog::Get`. -/
def Get (cat : CatalogState) (id : String) : Option SnapshotMeta :=
  lookupItem cat.items id

/-- `JournalCatalog::ListAll` (values in map order; the C++ order is
unspecified, this is one refinement). -/
def ListAll (cat : CatalogState) : List SnapshotMeta :=
  cat.items.map (·.2)

/-- `JournalCatalog::Upsert`: `items_[m.id] = m` (always returns true). -/
def Upsert (cat : CatalogState) (m : SnapshotMeta) : CatalogState :=
  { cat with items := insertItem cat.items m.id m }

/-- `JournalCatalog::TransitionState`: compare-and-swap on `state`. -/
def TransitionState (cat : CatalogState) (id : String)
    (expected desired : SnapshotState) : CatalogState × Bool :=
  match lookupItem cat.items id with
  | none => (cat, false)
  | some r =>
      if r.state = expected then
        ({ cat with items := insertItem cat.items id { r with state := desired } },
         true)
      else (cat, false)

/-- `JournalCatalog::RecordEvent`. -/
def RecordEvent (cat : CatalogState) (e : GCEvent) : CatalogState :=
  { cat with events := cat.events ++ [e] }

end MemCatalog

open MemCatalog

namespace SnapshotGC

/-- Everything the `SnapshotGC` constructor receives plus the (fixed)
current time of the pass: retention policy, options, presence of the
leader elector and the result its `TryAcquire()` would return, presence of
the corruption tracker, and the storage backend's batch-delete behaviour
`ids ↦ (allOk, failed, err)`. -/
structure EngineCtx where
  policy : RetentionPolicy
  opts : GCOptions
  hasLeader : Bool
  acquireOk : Bool
  hasCorruption : Bool
  storage : List String → Bool × List String × String
  now : TimePoint

/-- Insert `x` into an already-le-sorted list (helper for `sortBy`). -/
def insertSorted (le : α → α → Bool) (x : α) : List α → List α
  | [] => [x]
  | y :: ys => if le x y then x :: y :: ys else y :: insertSorted le x ys

/-- Deterministic comparison sort, embedding `std::sort` (whose order on
tied keys is unspecified; this is one refinement). -/
def sortBy (le : α → α → Bool) : List α → List α
  | [] => []
  | x :: xs => insertSorted le x (sortBy le xs)

/-- `SnapshotGC::MarkLiveWithParents`: insert `s.id`; if newly inserted,
follow `parentId` through `catalog_.Get` and recurse.  The C++ recursion
terminates because each call inserts a fresh id and the catalog is finite;
the model makes that bound explicit as `fuel` (callers pass
`cat.items.length + 1`, enough for any parent chain inside the catalog). -/
def MarkLiveWithParents (cat : CatalogState) :
    Nat → SnapshotMeta → List String → List String
  | 0, _, live => live
  | fuel + 1, s, live =>
      if live.contains s.id then live
      else
        let live := s.id :: live
        match s.parentId with
        | none => live
        | some pid =>
            match Get cat pid with
            | none => live
            | some p => MarkLiveWithParents cat fuel p live

/-- First phase of `SnapshotGC::ComputeLiveSet`: sort all records by
`created` descending and mark the first `keepLastN` (and their parents)
live. -/
def keepLastLive (cat : CatalogState) (policy : RetentionPolicy)
    (all : List SnapshotMeta) : List String :=
  let fuel := cat.items.length + 1
  let sorted := sortBy (fun a b => decide (b.created ≤ a.created)) all
  (sorted.take policy.keepLastN).foldl
    (fun live s => MarkLiveWithParents cat fuel s live) []

/-- Body of the second loop of `SnapshotGC::ComputeLiveSet` for one record:
skip `Deleted`, otherwise mark live (with parents) when newer than the
cutoff, leased, or carrying a pin tag. -/
def pinStep (cat : CatalogState) (cutoff : TimePoint) (fuel : Nat)
    (live : List String) (s : SnapshotMeta) : List String :=
  if s.state = .Deleted then live
  else
    let live :=
      if decide (cutoff ≤ s.created) then MarkLiveWithParents cat fuel s live
      else live
    let live :=
      if s.leaseCount > 0 then MarkLiveWithParents cat fuel s live else live
    if s.tags.contains "pin" || s.tags.contains "retain" ||
        s.tags.contains "legal" then
      MarkLiveWithParents cat fuel s live
    else live

/-- `SnapshotGC::ComputeLiveSet`. -/
def ComputeLiveSet (cat : CatalogState) (now : TimePoint)
    (policy : RetentionPolicy) (all : List SnapshotMeta) : List String :=
  let cutoff := now - policy.maxAge
  all.foldl (pinStep cat cutoff (cat.items.length + 1))
    (keepLastLive cat policy all)

/-- Body of the tombstoning loop of `SnapshotGC::TombstoneCandidates` for
one record. -/
def tombstoneStep (ctx : EngineCtx) (live : List String)
    (cat : CatalogState) (metrics : GCMetrics) (s : SnapshotMeta) :
    CatalogState × GCMetrics :=
  if s.state ≠ .Active then (cat, metrics)
  else if live.contains s.id then (cat, metrics)
  else if s.leaseCount > 0 then (cat, metrics)
  else if ctx.opts.dryRun then
    (RecordEvent cat ⟨ctx.now, s.id, "DRYRUN_TOMBSTONE", "Would tombstone"⟩,
     metrics)
  else
    match TransitionState cat s.id .Active .Tombstoned with
    | (cat, false) => (cat, metrics)
    | (cat, true) =>
        match Get cat s.id with
        | none => (cat, metrics)
        | some cur =>
            let m := { cur with
              hardDeleteAfter := some (ctx.now + ctx.opts.gracePeriod),
              nextRetryAfter := none,
              lastError := "" }
            let cat := Upsert cat m
            let cat := RecordEvent cat
              ⟨ctx.now, s.id, "TOMBSTONE", "Soft-deleted; hardDeleteAfter set"⟩
            (cat, { metrics with tombstoned := metrics.tombstoned + 1 })

/-- Body of the inactive-signal loop of `SnapshotGC::TombstoneCandidates`
for one record (`s.lastAccess.time_since_epoch().count() > 0` becomes
`0 < s.lastAccess`). -/
def inactiveStep (ctx : EngineCtx) (live : List String)
    (cat : CatalogState) (metrics : GCMetrics) (s : SnapshotMeta) :
    CatalogState × GCMetrics :=
  if s.state ≠ .Active then (cat, metrics)
  else if live.contains s.id then (cat, metrics)
  else if 0 < s.lastAccess then
    let inactiveAfter := s.lastAccess + ctx.opts.inactiveTimeout
    if decide (inactiveAfter ≤ ctx.now) then
      (RecordEvent cat ⟨ctx.now, s.id, "INACTIVE_ELIGIBLE",
          "Unreferenced long enough to be considered inactive"⟩,
       { metrics with
           inactiveLoadedSignals := metrics.inactiveLoadedSignals + 1 })
    else (cat, metrics)
  else (cat, metrics)

/-- `SnapshotGC::TombstoneCandidates`. -/
def TombstoneCandidates (ctx : EngineCtx) (all : List SnapshotMeta)
    (live : List String) (acc : CatalogState × GCMetrics) :
    CatalogState × GCMetrics :=
  let acc := all.foldl (fun acc s => tombstoneStep ctx live acc.1 acc.2 s) acc
  all.foldl (fun acc s => inactiveStep ctx live acc.1 acc.2 s) acc

/-- Eligibility filter at the top of `SnapshotGC::HardDeleteEligible`
(the chain of `continue`s): state Tombstoned, no leases, grace expired,
retry window open. -/
def eligibleForHardDelete (now : TimePoint) (s : SnapshotMeta) : Bool :=
  s.state = .Tombstoned && s.leaseCount = 0 &&
  (match s.hardDeleteAfter with
   | none => false
   | some hd => !decide (now < hd)) &&
  (match s.nextRetryAfter with
   | none => true
   | some nr => !decide (now < nr))

/-- The eligible list of `SnapshotGC::HardDeleteEligible` after the
`resize(maxDeletesPerRun)` truncation. -/
def hardDeleteCandidates (now : TimePoint) (opts : GCOptions)
    (all : List SnapshotMeta) : List SnapshotMeta :=
  (all.filter (eligibleForHardDelete now)).take opts.maxDeletesPerRun

/-- Contiguous chunks of size `n` (the `i += batchDeleteSize` loop).
Structural on `fuel`; callers pass `l.length + 1`, which always suffices
when `n > 0`.  With `n = 0` the C++ loop would never terminate; all
pass-level theorems assume `0 < batchDeleteSize`. -/
def chunksAux (n : Nat) : Nat → List α → List (List α)
  | 0, _ => []
  | _, [] => []
  | fuel + 1, x :: xs =>
      if n = 0 then []
      else (x :: xs).take n :: chunksAux n fuel ((x :: xs).drop n)

/-- Contiguous chunks of size `n` of a list. -/
def chunks (n : Nat) (l : List α) : List (List α) :=
  chunksAux n (l.length + 1) l

/-- Mutable state threaded through the hard-delete stage: the catalog, the
metrics, and traces of the external calls (each storage batch-delete's id
list, and each `ForgetCorruptionForSnapshot` call). -/
structure EngineSt where
  cat : CatalogState
  metrics : GCMetrics
  storageCalls : List (List String)
  corruptionForgets : List String
deriving Repr

/-- The catastrophic-batch test from `SnapshotGC::HardDeleteEligible`:
`!ok && failed.empty() && !err.empty()`. -/
def catastrophicBatch (ok : Bool) (failed : List String) (err : String) :
    Bool :=
  !ok && failed.isEmpty && !(err = "")

/-- `baseRetryBackoff * (1u << min(deleteFailures, 10))`. -/
def retryBackoff (opts : GCOptions) (failures : Nat) : Int :=
  opts.baseRetryBackoff * ((2 : Int) ^ min failures 10)

/-- Finalization of one id after the batch delete (the body of the
`for (auto& id : deletingIds)` loop in `SnapshotGC::HardDeleteEligible`). -/
def finalizeOne (ctx : EngineCtx) (ok : Bool) (failed : List String)
    (err : String) (st : EngineSt) (id : String) : EngineSt :=
  match Get st.cat id with
  | none => st
  | some cur =>
      let m := cur
      let isFailed := failed.contains id
      let isFailed := if catastrophicBatch ok failed err then true else isFailed
      if !isFailed then
        let cat := (TransitionState st.cat id .Deleting .Deleted).1
        let cat := RecordEvent cat
          ⟨ctx.now, id, "DELETE_OK", "Payload permanently deleted"⟩
        { st with
            cat
            metrics := { st.metrics with deleted := st.metrics.deleted + 1 }
            corruptionForgets :=
              if ctx.hasCorruption then st.corruptionForgets ++ [id]
              else st.corruptionForgets }
      else
        let metrics :=
          { st.metrics with deleteFailed := st.metrics.deleteFailed + 1 }
        let m := { m with
          deleteFailures := m.deleteFailures + 1,
          lastError := if err = "" then "Delete failed" else err }
        let m := { m with
          nextRetryAfter := some (ctx.now + retryBackoff ctx.opts m.deleteFailures) }
        if m.deleteFailures ≥ ctx.opts.maxDeleteFailuresBeforeQuarantine then
          let cat := (TransitionState st.cat id .Deleting .Quarantined).1
          let cat := RecordEvent cat
            ⟨ctx.now, id, "QUARANTINE",
              "Too many delete failures: " ++ m.lastError⟩
          let cat := Upsert cat m
          { st with
              cat
              metrics :=
                { metrics with quarantined := metrics.quarantined + 1 } }
        else
          let cat := (TransitionState st.cat id .Deleting .Tombstoned).1
          let cat := RecordEvent cat
            ⟨ctx.now, id, "DELETE_FAIL",
              "Will retry after backoff; err=" ++ m.lastError⟩
          let cat := Upsert cat m
          { st with cat, metrics }

/-- The `TransitionState(id, Tombstoned, Deleting)` anti-double-delete
barrier of `SnapshotGC::HardDeleteEligible`, one id at a time:
successfully transitioned ids are collected into the second component
(`deletingIds`). -/
def casBarrier (acc : EngineSt × List String) (id : String) :
    EngineSt × List String :=
  let t := TransitionState acc.1.cat id .Tombstoned .Deleting
  ({ acc.1 with cat := t.1 }, if t.2 then acc.2 ++ [id] else acc.2)

/-- One iteration of the chunk loop of `SnapshotGC::HardDeleteEligible`:
dry-run events, the Tombstoned→Deleting CAS barrier, the batch storage
call, and per-id finalization. -/
def processBatch (ctx : EngineCtx) (st : EngineSt)
    (batch : List SnapshotMeta) : EngineSt :=
  let batchIds := batch.map (·.id)
  if ctx.opts.dryRun then
    { st with
        cat := batchIds.foldl
          (fun c id =>
            RecordEvent c ⟨ctx.now, id, "DRYRUN_DELETE", "Would hard-delete payload"⟩)
          st.cat }
  else
    let acc := batchIds.foldl casBarrier (st, [])
    let st := acc.1
    let deletingIds := acc.2
    if deletingIds.isEmpty then st
    else
      let r := ctx.storage deletingIds
      let st := { st with storageCalls := st.storageCalls ++ [deletingIds] }
      deletingIds.foldl (finalizeOne ctx r.1 r.2.1 r.2.2) st

/-- `SnapshotGC::HardDeleteEligible`. -/
def HardDeleteEligible (ctx : EngineCtx) (st : EngineSt) : EngineSt :=
  let all := ListAll st.cat
  let eligible := hardDeleteCandidates ctx.now ctx.opts all
  (chunks ctx.opts.batchDeleteSize eligible).foldl (processBatch ctx) st

/-- The value `RunOnce` produces in the model: the returned metrics, the
final catalog, the external-call traces, whether `Release()` was called,
and how many times `ListAll()` was called. -/
structure RunResult where
  metrics : GCMetrics
  cat : CatalogState
  storageCalls : List (List String)
  corruptionForgets : List String
  releaseCalled : Bool
  listAllCalls : Nat
deriving Repr

/-- `SnapshotGC::RunOnce`. -/
def RunOnce (ctx : EngineCtx) (cat : CatalogState) : RunResult :=
  if ctx.hasLeader && !ctx.acquireOk then
    { metrics := {}, cat, storageCalls := [], corruptionForgets := [],
      releaseCalled := false, listAllCalls := 0 }
  else
    let all := ListAll cat
    let metrics : GCMetrics := { scanned := all.length }
    let live := ComputeLiveSet cat ctx.now ctx.policy all
    let tc :=
      if ctx.opts.enableTombstoneStage then
        TombstoneCandidates ctx all live (cat, metrics)
      else (cat, metrics)
    let st : EngineSt :=
      { cat := tc.1, metrics := tc.2, storageCalls := [],
        corruptionForgets := [] }
    let st :=
      if ctx.opts.enableHardDeleteStage then HardDeleteEligible ctx st
      else st
    { metrics := st.metrics, cat := st.cat, storageCalls := st.storageCalls,
      corruptionForgets := st.corruptionForgets,
      releaseCalled := ctx.hasLeader,
      listAllCalls := 1 + (if ctx.opts.enableHardDeleteStage then 1 else 0) }

end SnapshotGC

/-- The `for (auto& id : ids)` loop shared verbatim by the default
`IStorageBackend::DeleteSnapshotPayloadBatch` and by
`FilesystemStorage::DeleteSnapshotPayloadBatch`: run the single-id delete
(modelled by `del : id ↦ (ok, err)`) on each id, clearing `allOk` and
pushing the id onto `failed` on each failure. -/
def deleteLoop (del : String → Bool × String) :
    List String → Bool → List String → Bool × List String
  | [], allOk, failed => (allOk, failed)
  | id :: ids, allOk, failed =>
      if !(del id).1 then deleteLoop del ids false (failed ++ [id])
      else deleteLoop del ids allOk failed

namespace IStorageBackend

/-- The default `IStorageBackend::DeleteSnapshotPayloadBatch`
(snapshot_gc_interfaces.hpp): loop the virtual single-id delete, collect
failing ids into the `failed` out-parameter (whose incoming contents
`failed0` are preserved — the C++ only ever pushes), clear `err`, return
`allOk`. -/
def DeleteSnapshotPayloadBatch (del : String → Bool × String)
    (ids : List String) (failed0 : List String) :
    Bool × List String × String :=
  let r := deleteLoop del ids true failed0
  (r.1, r.2, "")

end IStorageBackend

namespace FilesystemStorage

/-- `FilesystemStorage::DeleteSnapshotPayloadBatch`
(filesystem_storage.hpp): same loop over the filesystem single-id delete,
abstracted as `del`; clears `err` before returning. -/
def DeleteSnapshotPayloadBatch (del : String → Bool × String)
    (ids : List String) (failed0 : List String) :
    Bool × List String × String :=
  let r := deleteLoop del ids true failed0
  (r.1, r.2, "")

end FilesystemStorage

/-!
## Journal catalog wire format (journal_catalog.hpp)

`std::to_string` on integers and `std::stoll`-family parsing are standard
library calls, embedded below as explicit decimal printing and parsing.
Journal files are modelled as the list of lines `std::getline` would
return; `Append` writes one line per record (faithful for records that
contain no newline character, which holds for everything the theorems
below feed it).
-/

/-- The decimal digit character for `d ≤ 9`. -/
def digitChar (d : Nat) : Char := Char.ofNat (48 + d)

/-- Decimal digits of `n`, least significant first.  Structural on `fuel`
so the kernel can evaluate it; `fuel = n + 1` always suffices. -/
def natDigitsRevAux : Nat → Nat → List Char
  | 0, _ => []
  | fuel + 1, n =>
      if n < 10 then [digitChar n]
      else digitChar (n % 10) :: natDigitsRevAux fuel (n / 10)

/-- Decimal representation of a natural number
(`std::to_string` on an unsigned value). -/
def natToString (n : Nat) : String := ⟨(natDigitsRevAux (n + 1) n).reverse⟩

/-- `std::to_string` on a signed 64-bit value (no claim exercises values
outside the long-long range, so the embedding is unbounded). -/
def intToString (i : Int) : String :=
  if i < 0 then "-" ++ natToString i.natAbs else natToString i.toNat

/-- Value of a decimal digit list, most significant first
(accumulator form). -/
def digitsVal (acc : Nat) : List Char → Nat
  | [] => acc
  | c :: cs => digitsVal (acc * 10 + (c.toNat - 48)) cs

/-- `std::stoll`: skip leading whitespace, optional sign, then the longest
digit prefix; no digits means the C++ call throws, modelled as `none`.
Trailing non-digit characters are ignored, as in C++. -/
def stoll (s : String) : Option Int :=
  match s.data.dropWhile (·.isWhitespace) with
  | [] => none
  | c :: rest =>
      let (neg, ds0) : Bool × List Char :=
        if c = '-' then (true, rest)
        else if c = '+' then (false, rest)
        else (false, c :: rest)
      let ds := ds0.takeWhile (·.isDigit)
      if ds.isEmpty then none
      else
        let v : Int := Int.ofNat (digitsVal 0 ds)
        some (if neg then -v else v)

namespace JournalCatalog

/-- `JournalCatalog::Escape` on one character. -/
def escapeChar (c : Char) : List Char :=
  if c = '\n' then ['\\', 'n']
  else if c = '\r' then ['\\', 'r']
  else if c = '\\' then ['\\', '\\']
  else [c]

/-- `JournalCatalog::Escape`. -/
def Escape (s : String) : String := ⟨(s.data.map escapeChar).flatten⟩

/-- `JournalCatalog::Unescape` (the index loop becomes recursion with a
one-character lookahead; an unrecognized escape keeps the backslash and
reprocesses the next character, a trailing backslash is kept). -/
def unescapeChars : List Char → List Char
  | [] => []
  | c :: rest =>
      if c = '\\' then
        match rest with
        | [] => [c]
        | n :: rest2 =>
            if n = 'n' then '\n' :: unescapeChars rest2
            else if n = 'r' then '\r' :: unescapeChars rest2
            else if n = '\\' then '\\' :: unescapeChars rest2
            else c :: unescapeChars (n :: rest2)
      else c :: unescapeChars rest

/-- `JournalCatalog::Unescape`. -/
def Unescape (s : String) : String := ⟨unescapeChars s.data⟩

/-- `JournalCatalog::Serialize`: the pipe-separated wire encoding
`id|created|size|state|lease|lastAccess|hardDelete|-1|failures|nextRetry|-1|lastError`
with `-1` sentinels for absent optionals.  (`parentId` and `tags` are not
serialized by the C++ code.) -/
def Serialize (m : SnapshotMeta) : String :=
  let hd : Int := match m.hardDeleteAfter with | some t => t | none => -1
  let nr : Int := match m.nextRetryAfter with | some t => t | none => -1
  m.id ++ "|" ++ intToString m.created ++ "|" ++ natToString m.sizeBytes ++
  "|" ++ natToString (stateToInt m.state) ++ "|" ++
  natToString m.leaseCount ++ "|" ++ intToString m.lastAccess ++ "|" ++
  intToString hd ++ "|" ++ natToString m.deleteFailures ++ "|" ++
  intToString nr ++ "|" ++ Escape m.lastError

/-- The character loop of `JournalCatalog::Deserialize` that splits a line
at separator characters (`parts` / `cur` accumulators as in the C++),
generalized over the separator test so the same loop also models
whitespace tokenization. -/
def splitAux (p : Char → Bool) (parts : List String) (cur : List Char) :
    List Char → List String
  | [] => parts ++ [⟨cur⟩]
  | c :: cs =>
      if p c then splitAux p (parts ++ [⟨cur⟩]) [] cs
      else splitAux p parts (cur ++ [c]) cs

/-- Split a line at `'|'` (the loop in `JournalCatalog::Deserialize`). -/
def splitPipes (line : String) : List String :=
  splitAux (fun c => c = '|') [] [] line.data

/-- Whitespace characters as skipped by `istringstream` extraction. -/
def wsChar (c : Char) : Bool :=
  c = ' ' || c = '\t' || c = '\r' || c = '\n'

/-- Whitespace tokenization, modelling repeated `istringstream >>`
extraction on a line of whitespace-separated tokens. -/
def tokensOf (line : String) : List String :=
  (splitAux wsChar [] [] line.data).filter (fun t => t ≠ "")

/-- `JournalCatalog::Deserialize`.  `parts.at(i)` throws when the field is
missing and the `stoll`/`stoi`/`stoul` calls throw on non-numeric input;
both are modelled as `none`.  The unsigned fields are parsed through the
same decimal parser and clamped at zero (the C++ `stoul` of a negative
string would wrap instead; the catalog never writes one). -/
def Deserialize (line : String) : Option SnapshotMeta :=
  let parts := splitPipes line
  let field (i : Nat) : Option String := parts.get? i
  let num (i : Nat) : Option Int := (parts.get? i).bind stoll
  match field 0, num 1, num 2, num 3, num 4, num 5, num 6, num 7, num 8,
      field 9 with
  | some id, some created, some size, some st, some lease, some lastAccess,
    some hd, some failures, some nr, some lastErr =>
      some
        { id := id
          created := created
          sizeBytes := size.toNat
          state := stateOfInt st
          parentId := none
          tags := []
          leaseCount := lease.toNat
          lastAccess := lastAccess
          hardDeleteAfter := if 0 ≤ hd then some hd else none
          deleteFailures := failures.toNat
          nextRetryAfter := if 0 ≤ nr then some nr else none
          lastError := Unescape lastErr }
  | _, _, _, _, _, _, _, _, _, _ => none

/-- On-disk plus in-memory state of a `JournalCatalog`: the `items_` map
and the journal file as the list of lines `getline` yields. -/
structure JState where
  items : List (String × SnapshotMeta)
  file : List String
deriving Repr

/-- `JournalCatalog::Append` (`f << rec << "\n"`): one line per record,
faithful for records containing no newline character. -/
def Append (st : JState) (rec : String) : JState :=
  { st with file := st.file ++ [rec] }

/-- `JournalCatalog::Upsert`. -/
def Upsert (st : JState) (m : SnapshotMeta) : JState :=
  Append { st with items := insertItem st.items m.id m }
    ("UPSERT " ++ Serialize m)

/-- `JournalCatalog::TransitionState` (appends a `STATE` line only on CAS
success). -/
def TransitionState (st : JState) (id : String)
    (expected desired : SnapshotState) : JState × Bool :=
  match lookupItem st.items id with
  | none => (st, false)
  | some r =>
      if r.state = expected then
        (Append
          { st with items := insertItem st.items id { r with state := desired } }
          ("STATE " ++ id ++ " " ++ natToString (stateToInt expected) ++ " " ++
            natToString (stateToInt desired)),
         true)
      else (st, false)

/-- `JournalCatalog::RecordEvent`. -/
def RecordEvent (st : JState) (e : GCEvent) : JState :=
  Append st ("EVENT " ++ e.snapshotId ++ " " ++ e.type ++ " " ++
    Escape e.details)

/-- `line.rfind(prefix, 0) == 0`. -/
def linePrefix (p line : String) : Bool :=
  line.data.take p.data.length = p.data

/-- Substring from byte 7 onward (`line.substr(7)`) for the ASCII prefixes
used by the journal. -/
def strDrop (s : String) (n : Nat) : String := ⟨s.data.drop n⟩

/-- Replay of one journal line into the map (the loop body of
`JournalCatalog::Replay`).  An `UPSERT` line whose payload fails to
deserialize would throw in C++, modelled as `none`; `STATE` lines parse
`tag, id, expected, desired` by stream extraction (a failed integer
extraction leaves 0, as in C++11); `EVENT` and unknown lines are
ignored. -/
def replayLine (items : List (String × SnapshotMeta)) (line : String) :
    Option (List (String × SnapshotMeta)) :=
  if linePrefix "UPSERT " line then
    (Deserialize (strDrop line 7)).map (fun m => insertItem items m.id m)
  else if linePrefix "STATE " line then
    let toks := tokensOf line
    let id := (toks[1]?).getD ""
    let desired := ((toks[3]?).bind stoll).getD 0
    some (match lookupItem items id with
      | none => items
      | some r => insertItem items id { r with state := stateOfInt desired })
  else some items

/-- Replay a list of journal lines starting from a given map. -/
def replayLines (items : List (String × SnapshotMeta)) :
    List String → Option (List (String × SnapshotMeta))
  | [] => some items
  | l :: ls =>
      match replayLine items l with
      | none => none
      | some items => replayLines items ls

/-- `JournalCatalog::Replay`: rebuild the map from the journal file. -/
def Replay (file : List String) : Option (List (String × SnapshotMeta)) :=
  replayLines [] file

/-- One mutating catalog operation, for quantifying over operation
sequences. -/
inductive CatalogOp where
  | upsert (m : SnapshotMeta)
  | transition (id : String) (expected desired : SnapshotState)
  | event (e : GCEvent)

/-- Apply one operation to a journal-catalog state. -/
def applyOp (st : JState) : CatalogOp → JState
  | .upsert m => Upsert st m
  | .transition id expected desired => (TransitionState st id expected desired).1
  | .event e => RecordEvent st e

/-- Apply a sequence of operations. -/
def applyOps (st : JState) (ops : List CatalogOp) : JState :=
  ops.foldl applyOp st

/-- A fresh catalog over an empty (nonexistent) journal file. -/
def initialJState : JState := { items := [], file := [] }

/-!
Well-formedness of the values a catalog client may feed the journal if the
wire format is to round-trip: ids free of the pipe separator, of newlines
(one `Append` = one `getline` line) and of the whitespace that `STATE`-line
stream extraction splits on; `lastError` free of the unescaped pipe
separator; present optional timestamps distinguishable from the `-1`
sentinel.  `parentId` and `tags` must be empty because `Serialize` does
not write them at all.
-/

/-- A character allowed in a snapshot id on the wire. -/
def goodChar (c : Char) : Prop :=
  c ≠ '|' ∧ c ≠ '\n' ∧ c ≠ '\r' ∧ c ≠ ' ' ∧ c ≠ '\t'

instance (c : Char) : Decidable (goodChar c) := by unfold goodChar; infer_instance

/-- A wire-safe snapshot id. -/
def goodId (s : String) : Prop := s ≠ "" ∧ ∀ c ∈ s.data, goodChar c

instance (s : String) : Decidable (goodId s) := by unfold goodId; infer_instance

/-- A record the journal wire format can represent exactly. -/
def goodMeta (m : SnapshotMeta) : Prop :=
  goodId m.id ∧ m.parentId = none ∧ m.tags = [] ∧
  (∀ c ∈ m.lastError.data, c ≠ '|') ∧
  (∀ t ∈ m.hardDeleteAfter, 0 ≤ t) ∧ (∀ t ∈ m.nextRetryAfter, 0 ≤ t)

instance (m : SnapshotMeta) : Decidable (goodMeta m) := by
  unfold goodMeta; infer_instance

/-- Well-formedness of one catalog operation for exact replay. -/
def goodOp : CatalogOp → Prop
  | .upsert m => goodMeta m
  | .transition id _ _ => goodId id
  | .event e =>
      (∀ c ∈ e.snapshotId.data, c ≠ '\n') ∧ (∀ c ∈ e.type.data, c ≠ '\n')

instance (op : CatalogOp) : Decidable (goodOp op) := by
  cases op <;> (unfold goodOp; infer_instance)

end JournalCatalog

namespace Scenarios

/-!
Concrete inputs used by the counterexamples, bug evaluations and
witnesses below.
-/

open SnapshotGC JournalCatalog

/-- A storage backend whose batch delete fails every id with an empty
`err` (the shape `FilesystemStorage` produces when every single delete
throws). -/
def failingStorage : List String → Bool × List String × String :=
  fun ids => (false, ids, "")

/-- A storage backend that deletes everything successfully. -/
def okStorage : List String → Bool × List String × String :=
  fun _ => (true, [], "")

/-- C1 input: one Tombstoned record with expired grace and a clean retry
counter. -/
def retryFailRec : SnapshotMeta :=
  { id := "X", state := .Tombstoned, hardDeleteAfter := some 0 }

/-- C1 catalog. -/
def retryFailCat : CatalogState := { items := [("X", retryFailRec)], events := [] }

/-- C1 engine context (defaults, no elector, failing storage,
`now` = 10^9 ms). -/
def retryFailCtx : EngineCtx :=
  { policy := {}, opts := {}, hasLeader := false, acquireOk := true,
    hasCorruption := false, storage := failingStorage, now := 1000000000 }

/-- C2 input: same shape but already at `maxDeleteFailuresBeforeQuarantine − 1`
failures, so the next failure crosses the threshold (default 5). -/
def quarantineRec : SnapshotMeta :=
  { id := "X", state := .Tombstoned, hardDeleteAfter := some 0,
    deleteFailures := 4 }

/-- C2 catalog. -/
def quarantineCat : CatalogState :=
  { items := [("X", quarantineRec)], events := [] }

/-- C2 engine context. -/
def quarantineCtx : EngineCtx :=
  { policy := {}, opts := {}, hasLeader := false, acquireOk := true,
    hasCorruption := false, storage := failingStorage, now := 1000000000 }

/-- C5 input: a Deleted record that is the newest by `created` and has an
Active parent. -/
def deletedChild : SnapshotMeta :=
  { id := "A", created := 10, state := .Deleted, parentId := some "P" }

/-- C5 input: the Active parent. -/
def liveParent : SnapshotMeta := { id := "P", created := 0 }

/-- C5 catalog. -/
def deletedChildCat : CatalogState :=
  { items := [("P", liveParent), ("A", deletedChild)], events := [] }

/-- C5 policy: keep the single newest record; `maxAge` of 1 ms so that at
`now = 10^6` neither record is in the age window. -/
def keepOnePolicy : RetentionPolicy := { keepLastN := 1, maxAge := 1 }

/-- C3/C4 input: a record carrying `parentId` and `tags`, which the wire
format drops. -/
def parentTaggedRec : SnapshotMeta :=
  { id := "a", parentId := some "p", tags := ["pin"] }

/-- C4 witness input: every serialized field exercised, `lastError` holding
newline, backslash and carriage-return. -/
def roundtripRec : SnapshotMeta :=
  { id := "snap1", created := -5, sizeBytes := 42, state := .Tombstoned,
    leaseCount := 3, lastAccess := 77, hardDeleteAfter := some 123,
    deleteFailures := 2, nextRetryAfter := none,
    lastError := "a\nb\\c\rd" }

/-- C3 counterexample operation sequence. -/
def lostParentOps : List CatalogOp := [.upsert parentTaggedRec]

/-- C3 witness: a well-formed record. -/
def goodRec1 : SnapshotMeta :=
  { id := "g1", created := -3, sizeBytes := 7, lastAccess := 9,
    lastError := "x\ny" }

/-- C3 witness: an overwrite of the same id with different fields. -/
def goodRec2 : SnapshotMeta :=
  { id := "g1", state := .Tombstoned, hardDeleteAfter := some 55,
    lastError := "boom\\" }

/-- C3 witness operation sequence: upsert, CAS transition, audit event,
overwriting upsert. -/
def goodOpsExample : List CatalogOp :=
  [.upsert goodRec1,
   .transition "g1" .Active .Tombstoned,
   .event ⟨5, "g1", "TOMBSTONE", "det\nails"⟩,
   .upsert goodRec2]

/-- C6 witness: an eligible Tombstoned record. -/
def eligibleRec : SnapshotMeta :=
  { id := "E", state := .Tombstoned, hardDeleteAfter := some 10 }

/-- C6 witness engine state. -/
def eligibleSt : EngineSt :=
  { cat := { items := [("E", eligibleRec)], events := [] }, metrics := {},
    storageCalls := [], corruptionForgets := [] }

/-- C6 witness engine context. -/
def eligibleCtx : EngineCtx :=
  { policy := {}, opts := {}, hasLeader := false, acquireOk := true,
    hasCorruption := false, storage := okStorage, now := 1000000 }

/-- C7 witness: an old, unreferenced Active record (dry-run tombstone
candidate that also trips the inactivity signal). -/
def staleActiveRec : SnapshotMeta := { id := "D", created := 0, lastAccess := 1 }

/-- C7 witness: an eligible Tombstoned record (dry-run delete candidate). -/
def staleTombstonedRec : SnapshotMeta :=
  { id := "T", created := 1, state := .Tombstoned, hardDeleteAfter := some 5 }

/-- C7 witness catalog. -/
def dryRunCat : CatalogState :=
  { items := [("D", staleActiveRec), ("T", staleTombstonedRec)],
    events := [⟨0, "D", "TOMBSTONE", "earlier"⟩] }

/-- C7 witness engine context: dry run, tiny retention policy, `now` far in
the future. -/
def dryRunCtx : EngineCtx :=
  { policy := { keepLastN := 0, maxAge := 1 },
    opts := { dryRun := true },
    hasLeader := false, acquireOk := true, hasCorruption := false,
    storage := failingStorage, now := 10000000000000 }

/-- C8 witness: a record mid-deletion. -/
def midDeleteRec : SnapshotMeta := { id := "Y", state := .Deleting }

/-- C8 witness engine state. -/
def midDeleteSt : EngineSt :=
  { cat := { items := [("Y", midDeleteRec)], events := [] }, metrics := {},
    storageCalls := [], corruptionForgets := [] }

/-- C8 witness engine context. -/
def midDeleteCtx : EngineCtx :=
  { policy := {}, opts := {}, hasLeader := false, acquireOk := true,
    hasCorruption := false, storage := failingStorage, now := 500 }

end Scenarios

/-!
## Theorems
-/

section BasicLemmas

theorem lookupItem_insertItem_self (items : List (String × SnapshotMeta))
    (id : String) (m : SnapshotMeta) :
    lookupItem (insertItem items id m) id = some m := by
  induction items with
  | nil => simp [insertItem, lookupItem]
  | cons kv rest ih =>
      obtain ⟨k, v⟩ := kv
      by_cases h : k = id <;> simp [insertItem, lookupItem, h, ih]

theorem Get_Upsert_self (cat : CatalogState) (m : SnapshotMeta) :
    Get (Upsert cat m) m.id = some m := by
  simp [MemCatalog.Get, MemCatalog.Upsert, lookupItem_insertItem_self]

end BasicLemmas

open SnapshotGC JournalCatalog Scenarios

/-- C9: if an elector is configured and its `TryAcquire` returns false,
`RunOnce` returns a metrics struct with every counter zero and performs no
catalog operation at all — no `ListAll`, an unchanged catalog (hence no
state transition, no upsert, no event), no storage call, no
corruption-tracker call — and does not call `Release`. -/
theorem RunOnce_not_leader (policy : RetentionPolicy) (opts : GCOptions)
    (hasCorruption : Bool)
    (storage : List String → Bool × List String × String)
    (now : TimePoint) (cat : CatalogState) :
    RunOnce
        { policy, opts, hasLeader := true, acquireOk := false, hasCorruption,
          storage, now } cat =
      { metrics := {}, cat := cat, storageCalls := [], corruptionForgets := [],
        releaseCalled := false, listAllCalls := 0 } := rfl

theorem deleteLoop_spec (del : String → Bool × String) (ids : List String) :
    ∀ (b0 : Bool) (f0 : List String),
      deleteLoop del ids b0 f0 =
        (b0 && ids.all (fun id => (del id).1),
         f0 ++ ids.filter (fun id => !(del id).1)) := by
  induction ids with
  | nil => intro b0 f0; simp [deleteLoop]
  | cons id ids ih =>
      intro b0 f0
      cases h : (del id).1 <;> simp [deleteLoop, h, ih]

/-- C10: both the default `IStorageBackend::DeleteSnapshotPayloadBatch` and
`FilesystemStorage::DeleteSnapshotPayloadBatch` always return with the
`err` out-parameter cleared to the empty string, attribute every failing id
through the `failed` list, and therefore can never make the engine's
catastrophic-batch condition (`!ok && failed.empty() && !err.empty()`)
true. -/
theorem storage_batch_err_always_empty (del : String → Bool × String)
    (ids : List String) (failed0 : List String) :
    (IStorageBackend.DeleteSnapshotPayloadBatch del ids failed0).2.2 = "" ∧
    (FilesystemStorage.DeleteSnapshotPayloadBatch del ids failed0).2.2 = "" ∧
    (IStorageBackend.DeleteSnapshotPayloadBatch del ids failed0).2.1 =
      failed0 ++ ids.filter (fun id => !(del id).1) ∧
    (FilesystemStorage.DeleteSnapshotPayloadBatch del ids failed0).2.1 =
      failed0 ++ ids.filter (fun id => !(del id).1) ∧
    catastrophicBatch
      (IStorageBackend.DeleteSnapshotPayloadBatch del ids failed0).1
      (IStorageBackend.DeleteSnapshotPayloadBatch del ids failed0).2.1
      (IStorageBackend.DeleteSnapshotPayloadBatch del ids failed0).2.2 =
        false ∧
    catastrophicBatch
      (FilesystemStorage.DeleteSnapshotPayloadBatch del ids failed0).1
      (FilesystemStorage.DeleteSnapshotPayloadBatch del ids failed0).2.1
      (FilesystemStorage.DeleteSnapshotPayloadBatch del ids failed0).2.2 =
        false := by
  simp [IStorageBackend.DeleteSnapshotPayloadBatch,
    FilesystemStorage.DeleteSnapshotPayloadBatch, deleteLoop_spec,
    catastrophicBatch]

theorem retryBackoff_mono (opts : GCOptions)
    (hbase : 0 ≤ opts.baseRetryBackoff) {f g : Nat} (h : f ≤ g) :
    retryBackoff opts f ≤ retryBackoff opts g := by
  unfold retryBackoff
  refine mul_le_mul_of_nonneg_left ?_ hbase
  exact pow_le_pow_right₀ (by norm_num) (min_le_min h le_rfl)

theorem retryBackoff_capped (opts : GCOptions)
    (hbase : 0 ≤ opts.baseRetryBackoff) (f : Nat) :
    retryBackoff opts f ≤ opts.baseRetryBackoff * 2 ^ 10 := by
  unfold retryBackoff
  refine mul_le_mul_of_nonneg_left ?_ hbase
  exact pow_le_pow_right₀ (by norm_num) (min_le_right f 10)

/-- C8: on every payload-delete failure the record persisted by the final
`Upsert` carries `deleteFailures` incremented by one and
`nextRetryAfter = now + baseRetryBackoff * 2 ^ min(deleteFailures, 10)`
computed from the incremented counter; that formula is non-decreasing in
the failure count and capped at `baseRetryBackoff * 2 ^ 10`. -/
theorem finalizeOne_failure_backoff (ctx : EngineCtx) (ok : Bool)
    (failed : List String) (err : String) (st : EngineSt) (id : String)
    (m : SnapshotMeta)
    (hget : Get st.cat id = some m) (hid : m.id = id)
    (hfail : failed.contains id = true)
    (hbase : 0 ≤ ctx.opts.baseRetryBackoff) :
    Get (finalizeOne ctx ok failed err st id).cat id =
      some { m with
              deleteFailures := m.deleteFailures + 1
              lastError := if err = "" then "Delete failed" else err
              nextRetryAfter :=
                some (ctx.now + retryBackoff ctx.opts (m.deleteFailures + 1)) } ∧
    (∀ f g : Nat, f ≤ g →
        retryBackoff ctx.opts f ≤ retryBackoff ctx.opts g) ∧
    (∀ f : Nat, retryBackoff ctx.opts f ≤ ctx.opts.baseRetryBackoff * 2 ^ 10) := by
  refine ⟨?_, fun f g h => retryBackoff_mono ctx.opts hbase h,
    fun f => retryBackoff_capped ctx.opts hbase f⟩
  unfold finalizeOne
  rw [hget]
  simp only [hfail]
  rw [ite_self]
  simp only [Bool.not_true, Bool.false_eq_true, if_false]
  split
  · have := Get_Upsert_self
      (RecordEvent (TransitionState st.cat id .Deleting .Quarantined).1
        ⟨ctx.now, id, "QUARANTINE",
          "Too many delete failures: " ++
            (if err = "" then "Delete failed" else err)⟩)
      { m with
          deleteFailures := m.deleteFailures + 1
          lastError := if err = "" then "Delete failed" else err
          nextRetryAfter :=
            some (ctx.now + retryBackoff ctx.opts (m.deleteFailures + 1)) }
    simpa [hid] using this
  · have := Get_Upsert_self
      (RecordEvent (TransitionState st.cat id .Deleting .Tombstoned).1
        ⟨ctx.now, id, "DELETE_FAIL",
          "Will retry after backoff; err=" ++
            (if err = "" then "Delete failed" else err)⟩)
      { m with
          deleteFailures := m.deleteFailures + 1
          lastError := if err = "" then "Delete failed" else err
          nextRetryAfter :=
            some (ctx.now + retryBackoff ctx.opts (m.deleteFailures + 1)) }
    simpa [hid] using this

/-- C8 witness: concrete failing delete on `midDeleteSt` at `now = 500`
with default options (base backoff 10 s): the persisted record carries
`deleteFailures = 1` and `nextRetryAfter = 500 + 10000·2^1 = 20500`. -/
theorem finalizeOne_failure_backoff_witness :
    (Get midDeleteSt.cat "Y" = some midDeleteRec ∧ midDeleteRec.id = "Y" ∧
      ["Y"].contains "Y" = true ∧ (0 : Int) ≤ midDeleteCtx.opts.baseRetryBackoff) ∧
    (Get (finalizeOne midDeleteCtx false ["Y"] "" midDeleteSt "Y").cat "Y" =
      some { midDeleteRec with
              deleteFailures := midDeleteRec.deleteFailures + 1
              lastError := if ("" : String) = "" then "Delete failed" else ""
              nextRetryAfter :=
                some (midDeleteCtx.now +
                  retryBackoff midDeleteCtx.opts (midDeleteRec.deleteFailures + 1)) } ∧
    (∀ f g : Nat, f ≤ g →
        retryBackoff midDeleteCtx.opts f ≤ retryBackoff midDeleteCtx.opts g) ∧
    (∀ f : Nat, retryBackoff midDeleteCtx.opts f ≤
        midDeleteCtx.opts.baseRetryBackoff * 2 ^ 10)) :=
  ⟨⟨by decide, by decide, by decide, by decide⟩,
    finalizeOne_failure_backoff midDeleteCtx false ["Y"] "" midDeleteSt "Y"
      midDeleteRec (by decide) (by decide) (by decide) (by decide)⟩

/-- C1 (bug evaluation): one Tombstoned record with expired grace, failing
storage, default options.  The pass increments `deleteFailures`, persists
`nextRetryAfter = now + 20 s` and `lastError`, emits `DELETE_FAIL` — but the
record ends the pass in state `Deleting`, not `Tombstoned`: the final
`Upsert(m)` writes back the snapshot `m` that was read while the record was
`Deleting`, clobbering the `Deleting → Tombstoned` revert the code had just
performed. -/
theorem delete_fail_pass_leaves_Deleting :
    Get (RunOnce retryFailCtx retryFailCat).cat "X" =
      some { retryFailRec with
              state := .Deleting
              deleteFailures := 1
              nextRetryAfter := some 1000020000
              lastError := "Delete failed" } ∧
    (RunOnce retryFailCtx retryFailCat).cat.events.map GCEvent.type =
      ["DELETE_FAIL"] ∧
    (RunOnce retryFailCtx retryFailCat).metrics.deleteFailed = 1 ∧
    (RunOnce retryFailCtx retryFailCat).metrics.quarantined = 0 := by
  refine ⟨?_, ?_, ?_, ?_⟩ <;> decide

/-- C2 (bug evaluation): a record one failure below the quarantine
threshold, failing storage.  The pass emits `QUARANTINE`, increments
`metrics.quarantined`, and the record is no longer an eligible hard-delete
candidate afterwards — but its final state is `Deleting`, not
`Quarantined`: the trailing `Upsert(m)` overwrites the
`Deleting → Quarantined` transition with the stale snapshot read while the
record was `Deleting`. -/
theorem quarantine_pass_leaves_Deleting :
    Get (RunOnce quarantineCtx quarantineCat).cat "X" =
      some { quarantineRec with
              state := .Deleting
              deleteFailures := 5
              nextRetryAfter := some 1000320000
              lastError := "Delete failed" } ∧
    (RunOnce quarantineCtx quarantineCat).cat.events.map GCEvent.type =
      ["QUARANTINE"] ∧
    (RunOnce quarantineCtx quarantineCat).metrics.quarantined = 1 ∧
    (∀ t : TimePoint,
      eligibleForHardDelete t
        { quarantineRec with
            state := .Deleting
            deleteFailures := 5
            nextRetryAfter := some 1000320000
            lastError := "Delete failed" } = false) := by
  refine ⟨by decide, by decide, by decide, fun t => rfl⟩

/-- C4 counterexample: `Deserialize ∘ Serialize` is not the identity on a
record carrying `parentId` and `tags` — the wire format has no fields for
them, so they come back empty. -/
theorem roundtrip_drops_parent_and_tags :
    Deserialize (Serialize parentTaggedRec) ≠ some parentTaggedRec ∧
    Deserialize (Serialize parentTaggedRec) =
      some { parentTaggedRec with parentId := none, tags := [] } := by
  refine ⟨?_, ?_⟩ <;> decide

/-- C3 counterexample: replaying the journal written by a single `Upsert`
of a record with a `parentId` does not reconstruct the in-memory map — the
replayed record has lost its parent. -/
theorem replay_loses_parent :
    Replay (applyOps initialJState lostParentOps).file ≠
      some (applyOps initialJState lostParentOps).items ∧
    Replay (applyOps initialJState lostParentOps).file =
      some [("a", { parentTaggedRec with parentId := none, tags := [] })] := by
  refine ⟨?_, ?_⟩ <;> decide

/-- C5 counterexample: a record in state Deleted that is among the
`keepLastN` newest is marked live by `ComputeLiveSet` and pins its Active
parent — the Deleted-skip only guards the age/lease/tag loop, not the
keep-last-N loop. -/
theorem deleted_record_marked_live :
    deletedChild.state = .Deleted ∧
    "A" ∈ ComputeLiveSet deletedChildCat 1000000 keepOnePolicy
      (ListAll deletedChildCat) ∧
    "P" ∈ ComputeLiveSet deletedChildCat 1000000 keepOnePolicy
      (ListAll deletedChildCat) := by
  refine ⟨rfl, ?_, ?_⟩ <;> decide

theorem pin_loop_skips_deleted (cat : CatalogState) (cutoff : TimePoint)
    (fuel : Nat) :
    ∀ (l : List SnapshotMeta) (live : List String),
      (∀ s ∈ l, s.state = .Deleted) →
      l.foldl (pinStep cat cutoff fuel) live = live := by
  intro l
  induction l with
  | nil => intro live _; rfl
  | cons s rest ih =>
      intro live h
      rw [List.foldl_cons,
        show pinStep cat cutoff fuel live s = live from by
          simp [pinStep, h s (List.mem_cons_self s rest)]]
      exact ih live (fun x hx => h x (List.mem_cons_of_mem s hx))

/-- C5 (amended): records in state Deleted are skipped by the
age/lease/tag marking loop of `ComputeLiveSet` — on a listing consisting
only of Deleted records that loop adds nothing, so the live set is exactly
what the keep-last-N phase produced.  (They are *not* skipped by the
keep-last-N phase itself, which may mark a Deleted record and its parents
live; see the counterexample.) -/
theorem ComputeLiveSet_deleted_skipped_in_pin_loop (cat : CatalogState)
    (now : TimePoint) (policy : RetentionPolicy) (all : List SnapshotMeta)
    (h : ∀ s ∈ all, s.state = .Deleted) :
    ComputeLiveSet cat now policy all = keepLastLive cat policy all := by
  unfold ComputeLiveSet
  exact pin_loop_skips_deleted cat (now - policy.maxAge)
    (cat.items.length + 1) all (keepLastLive cat policy all) h

/-- C5 amended witness: the deleted child alone in the listing. -/
theorem ComputeLiveSet_deleted_skipped_witness :
    (∀ s ∈ [deletedChild], s.state = .Deleted) ∧
    ComputeLiveSet deletedChildCat 1000000 keepOnePolicy [deletedChild] =
      keepLastLive deletedChildCat keepOnePolicy [deletedChild] :=
  ⟨by decide,
    ComputeLiveSet_deleted_skipped_in_pin_loop deletedChildCat 1000000
      keepOnePolicy [deletedChild] (by decide)⟩

theorem chunksAux_flatten {α : Type} (n : Nat) (hn : 0 < n) :
    ∀ (fuel : Nat) (l : List α), l.length < fuel →
      (chunksAux n fuel l).flatten = l := by
  intro fuel
  induction fuel with
  | zero => intro l h; omega
  | succ fuel ih =>
      intro l h
      cases l with
      | nil => simp [chunksAux]
      | cons x xs =>
          rw [chunksAux, if_neg hn.ne']
          simp only [List.flatten_cons]
          rw [ih ((x :: xs).drop n)
            (by
              simp only [List.length_cons] at h
              simp only [List.length_drop, List.length_cons]
              omega)]
          exact List.take_append_drop n (x :: xs)

theorem chunks_flatten {α : Type} (n : Nat) (hn : 0 < n) (l : List α) :
    (chunks n l).flatten = l :=
  chunksAux_flatten n hn (l.length + 1) l (Nat.lt_succ_self _)

theorem finalizeOne_storageCalls (ctx : EngineCtx) (ok : Bool)
    (failed : List String) (err : String) (st : EngineSt) (id : String) :
    (finalizeOne ctx ok failed err st id).storageCalls = st.storageCalls := by
  unfold finalizeOne
  cases hg : Get st.cat id
  · rfl
  · dsimp only
    split_ifs <;> rfl

theorem finalize_fold_storageCalls (ctx : EngineCtx) (ok : Bool)
    (failed : List String) (err : String) (ids : List String) :
    ∀ st : EngineSt,
      (ids.foldl (finalizeOne ctx ok failed err) st).storageCalls =
        st.storageCalls := by
  induction ids with
  | nil => intro st; rfl
  | cons id ids ih =>
      intro st
      rw [List.foldl_cons, ih, finalizeOne_storageCalls]

theorem casBarrier_fold_spec (ids : List String) :
    ∀ (st : EngineSt) (acc0 : List String),
      (ids.foldl casBarrier (st, acc0)).1.storageCalls = st.storageCalls ∧
      (ids.foldl casBarrier (st, acc0)).2.length ≤ acc0.length + ids.length ∧
      ∀ x ∈ (ids.foldl casBarrier (st, acc0)).2, x ∈ acc0 ∨ x ∈ ids := by
  induction ids with
  | nil =>
      intro st acc0
      exact ⟨rfl, by simp, fun x hx => Or.inl hx⟩
  | cons id ids ih =>
      intro st acc0
      rw [List.foldl_cons]
      by_cases h : (TransitionState st.cat id .Tombstoned .Deleting).2 = true
      · have hstep : casBarrier (st, acc0) id =
            ({ st with cat := (TransitionState st.cat id .Tombstoned .Deleting).1 },
             acc0 ++ [id]) := by
          simp [casBarrier, h]
        rw [hstep]
        obtain ⟨h1, h2, h3⟩ := ih
          { st with cat := (TransitionState st.cat id .Tombstoned .Deleting).1 }
          (acc0 ++ [id])
        refine ⟨h1, ?_, ?_⟩
        · simp only [List.length_append, List.length_cons, List.length_nil]
            at h2 ⊢
          omega
        · intro x hx
          rcases h3 x hx with hx' | hx'
          · rcases List.mem_append.mp hx' with h'' | h''
            · exact Or.inl h''
            · simp at h''
              exact Or.inr (by simp [h''])
          · exact Or.inr (List.mem_cons_of_mem id hx')
      · have hstep : casBarrier (st, acc0) id =
            ({ st with cat := (TransitionState st.cat id .Tombstoned .Deleting).1 },
             acc0) := by
          simp only [casBarrier]
          rw [if_neg h]
        rw [hstep]
        obtain ⟨h1, h2, h3⟩ := ih
          { st with cat := (TransitionState st.cat id .Tombstoned .Deleting).1 }
          acc0
        refine ⟨h1, by simp only [List.length_cons] at h2 ⊢; omega, ?_⟩
        intro x hx
        rcases h3 x hx with hx' | hx'
        · exact Or.inl hx'
        · exact Or.inr (List.mem_cons_of_mem id hx')

theorem processBatch_storage_trace (ctx : EngineCtx) (st : EngineSt)
    (batch : List SnapshotMeta) :
    ∃ extra : List (List String),
      (processBatch ctx st batch).storageCalls = st.storageCalls ++ extra ∧
      extra.flatten.length ≤ batch.length ∧
      ∀ x ∈ extra.flatten, x ∈ batch.map (·.id) := by
  unfold processBatch
  split
  · exact ⟨[], by simp, by simp, by simp⟩
  · dsimp only
    obtain ⟨h1, h2, h3⟩ := casBarrier_fold_spec (batch.map (·.id)) st []
    split
    · exact ⟨[], by simp [h1], by simp, by simp⟩
    · refine ⟨[((batch.map (·.id)).foldl casBarrier (st, [])).2], ?_, ?_, ?_⟩
      · rw [finalize_fold_storageCalls]
        simp [h1]
      · simp only [List.flatten_cons, List.flatten_nil, List.append_nil]
        simp only [List.length_map, List.length_nil] at h2
        omega
      · intro x hx
        simp only [List.flatten_cons, List.flatten_nil, List.append_nil] at hx
        rcases h3 x hx with h' | h'
        · simp at h'
        · exact h'

theorem batches_fold_storage_trace (ctx : EngineCtx) :
    ∀ (batches : List (List SnapshotMeta)) (st : EngineSt),
      ∃ extra : List (List String),
        (batches.foldl (processBatch ctx) st).storageCalls =
          st.storageCalls ++ extra ∧
        extra.flatten.length ≤ (batches.map List.length).sum ∧
        ∀ x ∈ extra.flatten, ∃ b ∈ batches, x ∈ b.map (·.id) := by
  intro batches
  induction batches with
  | nil =>
      intro st
      exact ⟨[], by simp, by simp, by simp⟩
  | cons b bs ih =>
      intro st
      rw [List.foldl_cons]
      obtain ⟨e1, he1, hl1, hm1⟩ := processBatch_storage_trace ctx st b
      obtain ⟨e2, he2, hl2, hm2⟩ := ih (processBatch ctx st b)
      refine ⟨e1 ++ e2, ?_, ?_, ?_⟩
      · rw [he2, he1, List.append_assoc]
      · simp only [List.flatten_append, List.length_append, List.map_cons,
          List.sum_cons]
        omega
      · intro x hx
        rw [List.flatten_append] at hx
        rcases List.mem_append.mp hx with h' | h'
        · exact ⟨b, List.mem_cons_self b bs, hm1 x h'⟩
        · obtain ⟨b', hb', hxb'⟩ := hm2 x h'
          exact ⟨b', List.mem_cons_of_mem b hb', hxb'⟩

/-- C6: in the hard-delete stage, every record in the eligible candidate
list satisfies state = Tombstoned, `leaseCount = 0`, `hardDeleteAfter` set
and `≤ now`, and `nextRetryAfter` unset or `≤ now` (so a Tombstoned record
is never hard-deleted before its stored `hardDeleteAfter`); the candidate
list is truncated to `maxDeletesPerRun`; and every id the stage ever hands
to the storage backend is the id of such a candidate, with at most
`maxDeletesPerRun` ids passed to storage in the whole pass. -/
theorem hard_delete_only_eligible (ctx : EngineCtx) (st : EngineSt)
    (h0 : st.storageCalls = []) (hb : 0 < ctx.opts.batchDeleteSize) :
    (∀ s ∈ hardDeleteCandidates ctx.now ctx.opts (ListAll st.cat),
        s.state = .Tombstoned ∧ s.leaseCount = 0 ∧
        (∃ hd, s.hardDeleteAfter = some hd ∧ hd ≤ ctx.now) ∧
        (∀ nr, s.nextRetryAfter = some nr → nr ≤ ctx.now)) ∧
    (hardDeleteCandidates ctx.now ctx.opts (ListAll st.cat)).length ≤
      ctx.opts.maxDeletesPerRun ∧
    (∀ x ∈ (HardDeleteEligible ctx st).storageCalls.flatten,
        ∃ s ∈ hardDeleteCandidates ctx.now ctx.opts (ListAll st.cat),
          s.id = x) ∧
    (HardDeleteEligible ctx st).storageCalls.flatten.length ≤
      ctx.opts.maxDeletesPerRun := by
  have hcand : ∀ s ∈ hardDeleteCandidates ctx.now ctx.opts (ListAll st.cat),
      s.state = .Tombstoned ∧ s.leaseCount = 0 ∧
      (∃ hd, s.hardDeleteAfter = some hd ∧ hd ≤ ctx.now) ∧
      (∀ nr, s.nextRetryAfter = some nr → nr ≤ ctx.now) := by
    intro s hs
    have hs' := List.mem_filter.mp
      (List.take_subset ctx.opts.maxDeletesPerRun _ hs)
    have helig := hs'.2
    unfold eligibleForHardDelete at helig
    simp only [Bool.and_eq_true, decide_eq_true_eq, Bool.not_eq_eq_eq_not,
      Bool.not_true] at helig
    obtain ⟨⟨⟨hstate, hlease⟩, hhd⟩, hnr⟩ := helig
    refine ⟨hstate, hlease, ?_, ?_⟩
    · cases hhd' : s.hardDeleteAfter with
      | none => rw [hhd'] at hhd; simp at hhd
      | some hd =>
          rw [hhd'] at hhd
          simp only [Bool.not_eq_true', decide_eq_false_iff_not,
            Int.not_lt] at hhd
          exact ⟨hd, rfl, hhd⟩
    · intro nr hnr'
      rw [hnr'] at hnr
      simp only [Bool.not_eq_true', decide_eq_false_iff_not,
        Int.not_lt] at hnr
      exact hnr
  have hlen : (hardDeleteCandidates ctx.now ctx.opts (ListAll st.cat)).length ≤
      ctx.opts.maxDeletesPerRun := by
    unfold hardDeleteCandidates
    simp only [List.length_take]
    exact Nat.min_le_left _ _
  refine ⟨hcand, hlen, ?_, ?_⟩
  all_goals
    unfold HardDeleteEligible
    obtain ⟨extra, heq, hlenx, hmem⟩ := batches_fold_storage_trace ctx
      (chunks ctx.opts.batchDeleteSize
        (hardDeleteCandidates ctx.now ctx.opts (ListAll st.cat))) st
  · intro x hx
    rw [heq, h0, List.nil_append] at hx
    obtain ⟨b, hb', hxb⟩ := hmem x hx
    obtain ⟨s, hsb, hsid⟩ := List.mem_map.mp hxb
    refine ⟨s, ?_, hsid⟩
    have : s ∈ (chunks ctx.opts.batchDeleteSize
        (hardDeleteCandidates ctx.now ctx.opts (ListAll st.cat))).flatten :=
      List.mem_flatten.mpr ⟨b, hb', hsb⟩
    rwa [chunks_flatten ctx.opts.batchDeleteSize hb] at this
  · rw [heq, h0, List.nil_append]
    refine Nat.le_trans hlenx ?_
    rw [← List.length_flatten,
      chunks_flatten ctx.opts.batchDeleteSize hb]
    exact hlen

/-- C6 witness: the single eligible record `eligibleRec` is a candidate
with all four conditions, and the pass hands exactly its id to storage. -/
theorem hard_delete_only_eligible_witness :
    (eligibleSt.storageCalls = [] ∧ 0 < eligibleCtx.opts.batchDeleteSize) ∧
    ((∀ s ∈ hardDeleteCandidates eligibleCtx.now eligibleCtx.opts
          (ListAll eligibleSt.cat),
        s.state = .Tombstoned ∧ s.leaseCount = 0 ∧
        (∃ hd, s.hardDeleteAfter = some hd ∧ hd ≤ eligibleCtx.now) ∧
        (∀ nr, s.nextRetryAfter = some nr → nr ≤ eligibleCtx.now)) ∧
    (hardDeleteCandidates eligibleCtx.now eligibleCtx.opts
        (ListAll eligibleSt.cat)).length ≤
      eligibleCtx.opts.maxDeletesPerRun ∧
    (∀ x ∈ (HardDeleteEligible eligibleCtx eligibleSt).storageCalls.flatten,
        ∃ s ∈ hardDeleteCandidates eligibleCtx.now eligibleCtx.opts
            (ListAll eligibleSt.cat), s.id = x) ∧
    (HardDeleteEligible eligibleCtx eligibleSt).storageCalls.flatten.length ≤
      eligibleCtx.opts.maxDeletesPerRun) :=
  ⟨⟨rfl, by decide⟩,
    hard_delete_only_eligible eligibleCtx eligibleSt rfl (by decide)⟩

theorem tombstoneStep_dry (ctx : EngineCtx) (live : List String)
    (hdry : ctx.opts.dryRun = true) (cat : CatalogState) (metrics : GCMetrics)
    (s : SnapshotMeta) :
    tombstoneStep ctx live cat metrics s = (cat, metrics) ∨
    tombstoneStep ctx live cat metrics s =
      (RecordEvent cat ⟨ctx.now, s.id, "DRYRUN_TOMBSTONE", "Would tombstone"⟩,
       metrics) := by
  unfold tombstoneStep
  split_ifs with h1 h2 h3
  · exact Or.inl rfl
  · exact Or.inl rfl
  · exact Or.inl rfl
  · exact Or.inr rfl

theorem inactiveStep_cases (ctx : EngineCtx) (live : List String)
    (cat : CatalogState) (metrics : GCMetrics) (s : SnapshotMeta) :
    inactiveStep ctx live cat metrics s = (cat, metrics) ∨
    inactiveStep ctx live cat metrics s =
      (RecordEvent cat ⟨ctx.now, s.id, "INACTIVE_ELIGIBLE",
          "Unreferenced long enough to be considered inactive"⟩,
       { metrics with
           inactiveLoadedSignals := metrics.inactiveLoadedSignals + 1 }) := by
  unfold inactiveStep
  dsimp only
  split_ifs <;> first | exact Or.inl rfl | exact Or.inr rfl

theorem tombstone_fold_dry (ctx : EngineCtx) (live : List String)
    (hdry : ctx.opts.dryRun = true) (all : List SnapshotMeta) :
    ∀ (cat : CatalogState) (metrics : GCMetrics),
      (all.foldl (fun acc s => tombstoneStep ctx live acc.1 acc.2 s)
          (cat, metrics)).2 = metrics ∧
      (all.foldl (fun acc s => tombstoneStep ctx live acc.1 acc.2 s)
          (cat, metrics)).1.items = cat.items ∧
      ∀ e ∈ (all.foldl (fun acc s => tombstoneStep ctx live acc.1 acc.2 s)
          (cat, metrics)).1.events,
        e ∈ cat.events ∨ e.type = "DRYRUN_TOMBSTONE" := by
  induction all with
  | nil => intro cat metrics; exact ⟨rfl, rfl, fun e he => Or.inl he⟩
  | cons s rest ih =>
      intro cat metrics
      rw [List.foldl_cons]
      rcases tombstoneStep_dry ctx live hdry cat metrics s with h | h <;>
        rw [h]
      · exact ih cat metrics
      · obtain ⟨h1, h2, h3⟩ := ih
          (RecordEvent cat
            ⟨ctx.now, s.id, "DRYRUN_TOMBSTONE", "Would tombstone"⟩) metrics
        refine ⟨h1, h2, ?_⟩
        intro e he
        rcases h3 e he with he' | he'
        · rcases List.mem_append.mp he' with h'' | h''
          · exact Or.inl h''
          · simp at h''
            exact Or.inr (by rw [h''])
        · exact Or.inr he'

theorem inactive_fold (ctx : EngineCtx) (live : List String)
    (all : List SnapshotMeta) :
    ∀ (cat : CatalogState) (metrics : GCMetrics),
      (all.foldl (fun acc s => inactiveStep ctx live acc.1 acc.2 s)
          (cat, metrics)).2.tombstoned = metrics.tombstoned ∧
      (all.foldl (fun acc s => inactiveStep ctx live acc.1 acc.2 s)
          (cat, metrics)).2.deleted = metrics.deleted ∧
      (all.foldl (fun acc s => inactiveStep ctx live acc.1 acc.2 s)
          (cat, metrics)).2.quarantined = metrics.quarantined ∧
      (all.foldl (fun acc s => inactiveStep ctx live acc.1 acc.2 s)
          (cat, metrics)).2.deleteFailed = metrics.deleteFailed ∧
      (all.foldl (fun acc s => inactiveStep ctx live acc.1 acc.2 s)
          (cat, metrics)).1.items = cat.items ∧
      ∀ e ∈ (all.foldl (fun acc s => inactiveStep ctx live acc.1 acc.2 s)
          (cat, metrics)).1.events,
        e ∈ cat.events ∨ e.type = "INACTIVE_ELIGIBLE" := by
  induction all with
  | nil =>
      intro cat metrics
      exact ⟨rfl, rfl, rfl, rfl, rfl, fun e he => Or.inl he⟩
  | cons s rest ih =>
      intro cat metrics
      rw [List.foldl_cons]
      rcases inactiveStep_cases ctx live cat metrics s with h | h <;> rw [h]
      · exact ih cat metrics
      · obtain ⟨h1, h2, h3, h4, h5, h6⟩ := ih
          (RecordEvent cat
            ⟨ctx.now, s.id, "INACTIVE_ELIGIBLE",
              "Unreferenced long enough to be considered inactive"⟩)
          { metrics with
              inactiveLoadedSignals := metrics.inactiveLoadedSignals + 1 }
        refine ⟨h1, h2, h3, h4, h5, ?_⟩
        intro e he
        rcases h6 e he with he' | he'
        · rcases List.mem_append.mp he' with h'' | h''
          · exact Or.inl h''
          · simp at h''
            exact Or.inr (by rw [h''])
        · exact Or.inr he'

theorem TombstoneCandidates_dry (ctx : EngineCtx) (all : List SnapshotMeta)
    (live : List String) (hdry : ctx.opts.dryRun = true)
    (cat : CatalogState) (metrics : GCMetrics) :
    (TombstoneCandidates ctx all live (cat, metrics)).1.items = cat.items ∧
    (TombstoneCandidates ctx all live (cat, metrics)).2.tombstoned =
      metrics.tombstoned ∧
    (TombstoneCandidates ctx all live (cat, metrics)).2.deleted =
      metrics.deleted ∧
    (TombstoneCandidates ctx all live (cat, metrics)).2.quarantined =
      metrics.quarantined ∧
    (TombstoneCandidates ctx all live (cat, metrics)).2.deleteFailed =
      metrics.deleteFailed ∧
    ∀ e ∈ (TombstoneCandidates ctx all live (cat, metrics)).1.events,
      e ∈ cat.events ∨ e.type = "DRYRUN_TOMBSTONE" ∨
        e.type = "INACTIVE_ELIGIBLE" := by
  unfold TombstoneCandidates
  obtain ⟨t1, t2, t3⟩ := tombstone_fold_dry ctx live hdry all cat metrics
  set mid := all.foldl (fun acc s => tombstoneStep ctx live acc.1 acc.2 s)
    (cat, metrics) with hmid
  obtain ⟨i1, i2, i3, i4, i5, i6⟩ := inactive_fold ctx live all mid.1 mid.2
  rw [show (mid.1, mid.2) = mid from rfl] at i1 i2 i3 i4 i5 i6
  refine ⟨by rw [i5, t2], by rw [i1, t1], by rw [i2, t1], by rw [i3, t1],
    by rw [i4, t1], ?_⟩
  intro e he
  rcases i6 e he with he' | he'
  · rcases t3 e he' with h'' | h''
    · exact Or.inl h''
    · exact Or.inr (Or.inl h'')
  · exact Or.inr (Or.inr he')

theorem dryDelete_fold (ctx : EngineCtx) (ids : List String) :
    ∀ c : CatalogState,
      (ids.foldl
          (fun c id =>
            MemCatalog.RecordEvent c
              ⟨ctx.now, id, "DRYRUN_DELETE", "Would hard-delete payload"⟩)
          c).items = c.items ∧
      ∀ e ∈ (ids.foldl
          (fun c id =>
            MemCatalog.RecordEvent c
              ⟨ctx.now, id, "DRYRUN_DELETE", "Would hard-delete payload"⟩)
          c).events,
        e ∈ c.events ∨ e.type = "DRYRUN_DELETE" := by
  induction ids with
  | nil => intro c; exact ⟨rfl, fun e he => Or.inl he⟩
  | cons id ids ih =>
      intro c
      rw [List.foldl_cons]
      obtain ⟨h1, h2⟩ := ih
        (MemCatalog.RecordEvent c
          ⟨ctx.now, id, "DRYRUN_DELETE", "Would hard-delete payload"⟩)
      refine ⟨h1, ?_⟩
      intro e he
      rcases h2 e he with he' | he'
      · rcases List.mem_append.mp he' with h'' | h''
        · exact Or.inl h''
        · simp at h''
          exact Or.inr (by rw [h''])
      · exact Or.inr he'

theorem processBatch_dry (ctx : EngineCtx) (hdry : ctx.opts.dryRun = true)
    (st : EngineSt) (batch : List SnapshotMeta) :
    (processBatch ctx st batch).metrics = st.metrics ∧
    (processBatch ctx st batch).storageCalls = st.storageCalls ∧
    (processBatch ctx st batch).cat.items = st.cat.items ∧
    ∀ e ∈ (processBatch ctx st batch).cat.events,
      e ∈ st.cat.events ∨ e.type = "DRYRUN_DELETE" := by
  unfold processBatch
  rw [if_pos hdry]
  obtain ⟨h1, h2⟩ := dryDelete_fold ctx (batch.map (·.id)) st.cat
  exact ⟨rfl, rfl, h1, h2⟩

theorem batches_fold_dry (ctx : EngineCtx) (hdry : ctx.opts.dryRun = true)
    (batches : List (List SnapshotMeta)) :
    ∀ st : EngineSt,
      (batches.foldl (processBatch ctx) st).metrics = st.metrics ∧
      (batches.foldl (processBatch ctx) st).storageCalls = st.storageCalls ∧
      (batches.foldl (processBatch ctx) st).cat.items = st.cat.items ∧
      ∀ e ∈ (batches.foldl (processBatch ctx) st).cat.events,
        e ∈ st.cat.events ∨ e.type = "DRYRUN_DELETE" := by
  induction batches with
  | nil => intro st; exact ⟨rfl, rfl, rfl, fun e he => Or.inl he⟩
  | cons b bs ih =>
      intro st
      rw [List.foldl_cons]
      obtain ⟨p1, p2, p3, p4⟩ := processBatch_dry ctx hdry st b
      obtain ⟨f1, f2, f3, f4⟩ := ih (processBatch ctx st b)
      refine ⟨by rw [f1, p1], by rw [f2, p2], by rw [f3, p3], ?_⟩
      intro e he
      rcases f4 e he with he' | he'
      · exact p4 e he'
      · exact Or.inr he'

theorem HardDeleteEligible_dry (ctx : EngineCtx)
    (hdry : ctx.opts.dryRun = true) (st : EngineSt) :
    (HardDeleteEligible ctx st).metrics = st.metrics ∧
    (HardDeleteEligible ctx st).storageCalls = st.storageCalls ∧
    (HardDeleteEligible ctx st).cat.items = st.cat.items ∧
    ∀ e ∈ (HardDeleteEligible ctx st).cat.events,
      e ∈ st.cat.events ∨ e.type = "DRYRUN_DELETE" := by
  unfold HardDeleteEligible
  exact batches_fold_dry ctx hdry _ st

theorem stage2_dry (ctx : EngineCtx) (hdry : ctx.opts.dryRun = true)
    (st : EngineSt) :
    (if ctx.opts.enableHardDeleteStage then HardDeleteEligible ctx st
      else st).metrics = st.metrics ∧
    (if ctx.opts.enableHardDeleteStage then HardDeleteEligible ctx st
      else st).storageCalls = st.storageCalls ∧
    (if ctx.opts.enableHardDeleteStage then HardDeleteEligible ctx st
      else st).cat.items = st.cat.items ∧
    ∀ e ∈ (if ctx.opts.enableHardDeleteStage then HardDeleteEligible ctx st
      else st).cat.events,
      e ∈ st.cat.events ∨ e.type = "DRYRUN_DELETE" := by
  by_cases h : ctx.opts.enableHardDeleteStage
  · rw [if_pos h]
    exact HardDeleteEligible_dry ctx hdry st
  · rw [if_neg h]
    exact ⟨rfl, rfl, rfl, fun e he => Or.inl he⟩

theorem stage1_dry (ctx : EngineCtx) (hdry : ctx.opts.dryRun = true)
    (all : List SnapshotMeta) (live : List String) (cat : CatalogState)
    (metrics : GCMetrics) :
    (if ctx.opts.enableTombstoneStage then
        TombstoneCandidates ctx all live (cat, metrics)
      else (cat, metrics)).1.items = cat.items ∧
    (if ctx.opts.enableTombstoneStage then
        TombstoneCandidates ctx all live (cat, metrics)
      else (cat, metrics)).2.tombstoned = metrics.tombstoned ∧
    (if ctx.opts.enableTombstoneStage then
        TombstoneCandidates ctx all live (cat, metrics)
      else (cat, metrics)).2.deleted = metrics.deleted ∧
    (if ctx.opts.enableTombstoneStage then
        TombstoneCandidates ctx all live (cat, metrics)
      else (cat, metrics)).2.quarantined = metrics.quarantined ∧
    (if ctx.opts.enableTombstoneStage then
        TombstoneCandidates ctx all live (cat, metrics)
      else (cat, metrics)).2.deleteFailed = metrics.deleteFailed ∧
    ∀ e ∈ (if ctx.opts.enableTombstoneStage then
        TombstoneCandidates ctx all live (cat, metrics)
      else (cat, metrics)).1.events,
      e ∈ cat.events ∨ e.type = "DRYRUN_TOMBSTONE" ∨
        e.type = "INACTIVE_ELIGIBLE" := by
  by_cases h : ctx.opts.enableTombstoneStage
  · rw [if_pos h]
    exact TombstoneCandidates_dry ctx all live hdry cat metrics
  · rw [if_neg h]
    exact ⟨rfl, rfl, rfl, rfl, rfl, fun e he => Or.inl he⟩

/-- C7: with `dryRun = true` a `RunOnce` pass changes no record in the
catalog (hence no record's state), attempts no payload deletion on the
storage backend, records only `DRYRUN_TOMBSTONE` and `DRYRUN_DELETE`
events plus the `INACTIVE_ELIGIBLE` telemetry signal, and returns
`metrics.tombstoned = metrics.deleted = metrics.quarantined =
metrics.deleteFailed = 0`. -/
theorem RunOnce_dry_run_purity (ctx : EngineCtx) (cat : CatalogState)
    (hdry : ctx.opts.dryRun = true) (hb : 0 < ctx.opts.batchDeleteSize) :
    (RunOnce ctx cat).cat.items = cat.items ∧
    (RunOnce ctx cat).storageCalls = [] ∧
    (RunOnce ctx cat).metrics.tombstoned = 0 ∧
    (RunOnce ctx cat).metrics.deleted = 0 ∧
    (RunOnce ctx cat).metrics.quarantined = 0 ∧
    (RunOnce ctx cat).metrics.deleteFailed = 0 ∧
    ∀ e ∈ (RunOnce ctx cat).cat.events,
      e ∈ cat.events ∨ e.type = "DRYRUN_TOMBSTONE" ∨
        e.type = "DRYRUN_DELETE" ∨ e.type = "INACTIVE_ELIGIBLE" := by
  unfold RunOnce
  split
  · exact ⟨rfl, rfl, rfl, rfl, rfl, rfl, fun e he => Or.inl he⟩
  · dsimp only
    obtain ⟨t1, t2, t3, t4, t5, t6⟩ := stage1_dry ctx hdry (ListAll cat)
      (ComputeLiveSet cat ctx.now ctx.policy (ListAll cat)) cat
      { scanned := (ListAll cat).length }
    obtain ⟨s1, s2, s3, s4⟩ := stage2_dry ctx hdry
      { cat := (if ctx.opts.enableTombstoneStage then
            TombstoneCandidates ctx (ListAll cat)
              (ComputeLiveSet cat ctx.now ctx.policy (ListAll cat))
              (cat, { scanned := (ListAll cat).length })
          else (cat, { scanned := (ListAll cat).length })).1,
        metrics := (if ctx.opts.enableTombstoneStage then
            TombstoneCandidates ctx (ListAll cat)
              (ComputeLiveSet cat ctx.now ctx.policy (ListAll cat))
              (cat, { scanned := (ListAll cat).length })
          else (cat, { scanned := (ListAll cat).length })).2,
        storageCalls := [], corruptionForgets := [] }
    refine ⟨?_, ?_, ?_, ?_, ?_, ?_, ?_⟩
    · rw [s3]; exact t1
    · rw [s2]
    · rw [s1]; exact t2
    · rw [s1]; exact t3
    · rw [s1]; exact t4
    · rw [s1]; exact t5
    · intro e he
      rcases s4 e he with he' | he'
      · rcases t6 e he' with h'' | h'' | h''
        · exact Or.inl h''
        · exact Or.inr (Or.inl h'')
        · exact Or.inr (Or.inr (Or.inr h''))
      · exact Or.inr (Or.inr (Or.inl he'))

/-- C7 witness: the dry-run pass on `dryRunCat` leaves both records
untouched, calls no storage delete, keeps the four mutation counters at
zero, and only appends `DRYRUN_*`/`INACTIVE_ELIGIBLE` events. -/
theorem RunOnce_dry_run_purity_witness :
    (dryRunCtx.opts.dryRun = true ∧ 0 < dryRunCtx.opts.batchDeleteSize) ∧
    ((RunOnce dryRunCtx dryRunCat).cat.items = dryRunCat.items ∧
    (RunOnce dryRunCtx dryRunCat).storageCalls = [] ∧
    (RunOnce dryRunCtx dryRunCat).metrics.tombstoned = 0 ∧
    (RunOnce dryRunCtx dryRunCat).metrics.deleted = 0 ∧
    (RunOnce dryRunCtx dryRunCat).metrics.quarantined = 0 ∧
    (RunOnce dryRunCtx dryRunCat).metrics.deleteFailed = 0 ∧
    ∀ e ∈ (RunOnce dryRunCtx dryRunCat).cat.events,
      e ∈ dryRunCat.events ∨ e.type = "DRYRUN_TOMBSTONE" ∨
        e.type = "DRYRUN_DELETE" ∨ e.type = "INACTIVE_ELIGIBLE") :=
  ⟨⟨rfl, by decide⟩,
    RunOnce_dry_run_purity dryRunCtx dryRunCat rfl (by decide)⟩

theorem digitChar_facts (d : Nat) (h : d < 10) :
    (digitChar d).toNat = 48 + d ∧ (digitChar d).isDigit = true ∧
    (digitChar d).isWhitespace = false ∧ digitChar d ≠ '|' ∧
    digitChar d ≠ '-' ∧ digitChar d ≠ '+' ∧ digitChar d ≠ '\n' ∧
    digitChar d ≠ '\r' ∧ digitChar d ≠ ' ' ∧ digitChar d ≠ '\t' ∧
    digitChar d ≠ '\\' ∧ wsChar (digitChar d) = false := by
  interval_cases d <;> exact (by decide)

theorem natDigitsRevAux_shape :
    ∀ (fuel n : Nat), ∀ c ∈ natDigitsRevAux fuel n, ∃ d, d < 10 ∧ c = digitChar d := by
  intro fuel
  induction fuel with
  | zero => intro n c hc; simp [natDigitsRevAux] at hc
  | succ fuel ih =>
      intro n c hc
      rw [natDigitsRevAux] at hc
      by_cases h : n < 10
      · rw [if_pos h] at hc
        simp at hc
        exact ⟨n, h, hc⟩
      · rw [if_neg h] at hc
        rcases List.mem_cons.mp hc with hc' | hc'
        · exact ⟨n % 10, Nat.mod_lt n (by omega), hc'⟩
        · exact ih (n / 10) c hc'

theorem natDigitsRevAux_ne_nil (fuel n : Nat) :
    natDigitsRevAux (fuel + 1) n ≠ [] := by
  rw [natDigitsRevAux]
  by_cases h : n < 10
  · rw [if_pos h]; simp
  · rw [if_neg h]; simp

theorem digitsVal_append (xs ys : List Char) :
    ∀ acc, digitsVal acc (xs ++ ys) = digitsVal (digitsVal acc xs) ys := by
  induction xs with
  | nil => intro acc; rfl
  | cons c cs ih =>
      intro acc
      rw [List.cons_append]
      show digitsVal (acc * 10 + (c.toNat - 48)) (cs ++ ys) = _
      rw [ih]
      rfl

theorem digitsVal_natDigitsRevAux :
    ∀ (fuel n : Nat), n < fuel → ∀ acc : Nat,
      digitsVal acc ((natDigitsRevAux fuel n).reverse) =
        acc * 10 ^ (natDigitsRevAux fuel n).length + n := by
  intro fuel
  induction fuel with
  | zero => intro n h; omega
  | succ fuel ih =>
      intro n h acc
      rw [natDigitsRevAux]
      by_cases h10 : n < 10
      · rw [if_pos h10]
        show digitsVal (acc * 10 + ((digitChar n).toNat - 48)) [] =
          acc * 10 ^ [digitChar n].length + n
        rw [(digitChar_facts n h10).1]
        show acc * 10 + (48 + n - 48) = acc * 10 ^ 1 + n
        rw [pow_one]
        omega
      · rw [if_neg h10]
        simp only [List.reverse_cons, List.length_cons]
        rw [digitsVal_append]
        rw [ih (n / 10) (by omega) acc]
        show (acc * 10 ^ (natDigitsRevAux fuel (n / 10)).length + n / 10) * 10 +
            ((digitChar (n % 10)).toNat - 48) =
          acc * 10 ^ ((natDigitsRevAux fuel (n / 10)).length + 1) + n
        rw [(digitChar_facts (n % 10) (Nat.mod_lt n (by omega))).1]
        rw [pow_succ, ← mul_assoc]
        generalize acc * 10 ^ (natDigitsRevAux fuel (n / 10)).length = q
        omega

theorem takeWhile_all {p : Char → Bool} :
    ∀ l : List Char, (∀ x ∈ l, p x = true) → l.takeWhile p = l := by
  intro l
  induction l with
  | nil => intro _; rfl
  | cons c cs ih =>
      intro h
      rw [List.takeWhile_cons, h c (List.mem_cons_self c cs),
        ih (fun x hx => h x (List.mem_cons_of_mem c hx))]
      simp

theorem stoll_of_digit_list (l : List Char) (hne : l ≠ [])
    (hall : ∀ x ∈ l, ∃ d, d < 10 ∧ x = digitChar d) :
    stoll ⟨l⟩ = some (Int.ofNat (digitsVal 0 l)) := by
  cases l with
  | nil => exact absurd rfl hne
  | cons c cs =>
      obtain ⟨d, hd, hcd⟩ := hall c (List.mem_cons_self c cs)
      have hfacts := digitChar_facts d hd
      have hcw : c.isWhitespace = false := by rw [hcd]; exact hfacts.2.2.1
      have hcm : c ≠ '-' := by rw [hcd]; exact hfacts.2.2.2.2.1
      have hcp : c ≠ '+' := by rw [hcd]; exact hfacts.2.2.2.2.2.1
      have halldig : ∀ x ∈ c :: cs, x.isDigit = true := by
        intro x hx
        obtain ⟨d', hd', hxd⟩ := hall x hx
        rw [hxd]
        exact (digitChar_facts d' hd').2.1
      unfold stoll
      dsimp only
      rw [List.dropWhile_cons, hcw]
      simp only [Bool.false_eq_true, if_false]
      try dsimp only
      rw [if_neg hcm, if_neg hcp]
      try dsimp only
      rw [takeWhile_all (c :: cs) halldig]
      simp

theorem stoll_neg_digit_list (l : List Char) (hne : l ≠ [])
    (hall : ∀ x ∈ l, ∃ d, d < 10 ∧ x = digitChar d) :
    stoll ⟨'-' :: l⟩ = some (-(Int.ofNat (digitsVal 0 l))) := by
  have halldig : ∀ x ∈ l, x.isDigit = true := by
    intro x hx
    obtain ⟨d', hd', hxd⟩ := hall x hx
    rw [hxd]
    exact (digitChar_facts d' hd').2.1
  unfold stoll
  dsimp only
  rw [List.dropWhile_cons]
  simp only [show ('-' : Char).isWhitespace = false from rfl,
    Bool.false_eq_true, if_false]
  simp only [if_true]
  try dsimp only
  rw [takeWhile_all l halldig]
  cases l with
  | nil => exact absurd rfl hne
  | cons a l' => simp

theorem stoll_natToString (n : Nat) : stoll (natToString n) = some (n : Int) := by
  have h := stoll_of_digit_list ((natDigitsRevAux (n + 1) n).reverse)
    (by simp [natDigitsRevAux_ne_nil])
    (fun x hx => natDigitsRevAux_shape (n + 1) n x (List.mem_reverse.mp hx))
  rw [show natToString n = ⟨(natDigitsRevAux (n + 1) n).reverse⟩ from rfl, h]
  congr 1
  rw [digitsVal_natDigitsRevAux (n + 1) n (Nat.lt_succ_self n) 0]
  simp

theorem stoll_intToString (i : Int) : stoll (intToString i) = some i := by
  unfold intToString
  by_cases h : i < 0
  · rw [if_pos h]
    have hstr : "-" ++ natToString i.natAbs =
        ⟨'-' :: (natDigitsRevAux (i.natAbs + 1) i.natAbs).reverse⟩ := rfl
    rw [hstr, stoll_neg_digit_list ((natDigitsRevAux (i.natAbs + 1) i.natAbs).reverse)
      (by simp [natDigitsRevAux_ne_nil])
      (fun x hx =>
        natDigitsRevAux_shape (i.natAbs + 1) i.natAbs x (List.mem_reverse.mp hx))]
    rw [digitsVal_natDigitsRevAux (i.natAbs + 1) i.natAbs (Nat.lt_succ_self _) 0]
    congr 1
    simp only [Nat.zero_mul, Nat.zero_add, Int.ofNat_eq_natCast]
    omega
  · rw [if_neg h, stoll_natToString]
    congr 1
    omega

theorem stateOfInt_stateToInt (s : SnapshotState) :
    stateOfInt ((stateToInt s : Nat) : Int) = s := by
  cases s <;> rfl

theorem unescapeChars_escapeChar_flatten (l : List Char) :
    unescapeChars ((l.map escapeChar).flatten) = l := by
  induction l with
  | nil => rfl
  | cons c rest ih =>
      simp only [List.map_cons, List.flatten_cons]
      by_cases h1 : c = '\n'
      · subst h1
        show unescapeChars ('\\' :: 'n' :: (rest.map escapeChar).flatten) = _
        rw [show ∀ t, unescapeChars ('\\' :: 'n' :: t) = '\n' :: unescapeChars t
          from fun t => rfl]
        rw [ih]
      · by_cases h2 : c = '\r'
        · subst h2
          show unescapeChars ('\\' :: 'r' :: (rest.map escapeChar).flatten) = _
          rw [show ∀ t, unescapeChars ('\\' :: 'r' :: t) = '\r' :: unescapeChars t
            from fun t => rfl]
          rw [ih]
        · by_cases h3 : c = '\\'
          · subst h3
            show unescapeChars
              ('\\' :: '\\' :: (rest.map escapeChar).flatten) = _
            rw [show ∀ t, unescapeChars ('\\' :: '\\' :: t) =
                '\\' :: unescapeChars t from fun t => rfl]
            rw [ih]
          · rw [show escapeChar c = [c] from by
              simp [escapeChar, h1, h2, h3]]
            show unescapeChars (c :: (rest.map escapeChar).flatten) = _
            rw [unescapeChars.eq_def]
            dsimp only
            rw [if_neg h3, ih]

theorem Unescape_Escape (s : String) : Unescape (Escape s) = s := by
  show String.mk (unescapeChars ((s.data.map escapeChar).flatten)) = s
  rw [unescapeChars_escapeChar_flatten]

theorem escapeChar_subset (c x : Char) (hx : x ∈ escapeChar c) :
    x = '\\' ∨ x = 'n' ∨ x = 'r' ∨ x = c := by
  unfold escapeChar at hx
  split_ifs at hx <;> simp at hx <;> tauto

theorem Escape_no_pipe (s : String) (h : ∀ c ∈ s.data, c ≠ '|') :
    ∀ x ∈ (Escape s).data, x ≠ '|' := by
  intro x hx
  show x ≠ '|'
  have hx' : x ∈ (s.data.map escapeChar).flatten := hx
  obtain ⟨l, hl, hxl⟩ := List.mem_flatten.mp hx'
  obtain ⟨c, hc, hcl⟩ := List.mem_map.mp hl
  rcases escapeChar_subset c x (hcl ▸ hxl) with h' | h' | h' | h'
  · rw [h']; decide
  · rw [h']; decide
  · rw [h']; decide
  · rw [h']; exact h c hc

theorem natToString_no_pipe (n : Nat) :
    ∀ c ∈ (natToString n).data, c ≠ '|' := by
  intro c hc
  obtain ⟨d, hd, hcd⟩ := natDigitsRevAux_shape (n + 1) n c
    (List.mem_reverse.mp hc)
  rw [hcd]
  exact (digitChar_facts d hd).2.2.2.1

theorem intToString_no_pipe (i : Int) :
    ∀ c ∈ (intToString i).data, c ≠ '|' := by
  intro c hc
  unfold intToString at hc
  by_cases h : i < 0
  · rw [if_pos h, String.data_append] at hc
    rcases List.mem_append.mp hc with h' | h'
    · simp at h'
      rw [h']
      decide
    · exact natToString_no_pipe i.natAbs c h'
  · rw [if_neg h] at hc
    exact natToString_no_pipe i.toNat c hc

theorem splitAux_nil (p : Char → Bool) (parts : List String) (cur : List Char) :
    splitAux p parts cur [] = parts ++ [⟨cur⟩] := rfl

theorem splitAux_cons (p : Char → Bool) (parts : List String) (cur : List Char)
    (c : Char) (cs : List Char) :
    splitAux p parts cur (c :: cs) =
      if p c then splitAux p (parts ++ [⟨cur⟩]) [] cs
      else splitAux p parts (cur ++ [c]) cs := rfl

theorem splitAux_nosep (p : Char → Bool) :
    ∀ (xs : List Char), (∀ c ∈ xs, p c = false) →
      ∀ (parts : List String) (cur rest : List Char),
        splitAux p parts cur (xs ++ rest) = splitAux p parts (cur ++ xs) rest := by
  intro xs
  induction xs with
  | nil => intro _ parts cur rest; simp
  | cons c cs ih =>
      intro h parts cur rest
      rw [List.cons_append, splitAux_cons, h c (List.mem_cons_self c cs)]
      simp only [Bool.false_eq_true, if_false]
      rw [ih (fun x hx => h x (List.mem_cons_of_mem c hx)) parts (cur ++ [c])
        rest]
      rw [List.append_assoc, List.singleton_append]

theorem splitAux_last (p : Char → Bool) (xs : List Char)
    (h : ∀ c ∈ xs, p c = false) (parts : List String) (cur : List Char) :
    splitAux p parts cur xs = parts ++ [⟨cur ++ xs⟩] := by
  have h' := splitAux_nosep p xs h parts cur []
  rw [List.append_nil] at h'
  rw [h', splitAux_nil]

theorem splitAux_sep (p : Char → Bool) (parts : List String) (cur : List Char)
    (c : Char) (cs : List Char) (h : p c = true) :
    splitAux p parts cur (c :: cs) = splitAux p (parts ++ [⟨cur⟩]) [] cs := by
  rw [splitAux_cons, h]
  simp

theorem splitPipes_step (a : String) (ha : ∀ c ∈ a.data, c ≠ '|')
    (parts : List String) (cur rest : List Char) :
    splitAux (fun c => c = '|') parts cur (a.data ++ '|' :: rest) =
      splitAux (fun c => c = '|') (parts ++ [⟨cur ++ a.data⟩]) [] rest := by
  rw [splitAux_nosep (fun c => c = '|') a.data
    (fun c hc => decide_eq_false (ha c hc)) parts cur ('|' :: rest)]
  rw [splitAux_sep (fun c => c = '|') parts (cur ++ a.data) '|' rest
    (by decide)]

theorem splitPipes_serialize (m : SnapshotMeta)
    (hid : ∀ c ∈ m.id.data, c ≠ '|')
    (herr : ∀ c ∈ m.lastError.data, c ≠ '|') :
    splitPipes (Serialize m) =
      [m.id, intToString m.created, natToString m.sizeBytes,
       natToString (stateToInt m.state), natToString m.leaseCount,
       intToString m.lastAccess,
       intToString (match m.hardDeleteAfter with | some t => t | none => -1),
       natToString m.deleteFailures,
       intToString (match m.nextRetryAfter with | some t => t | none => -1),
       Escape m.lastError] := by
  unfold splitPipes Serialize
  dsimp only
  simp only [String.data_append, show ("|" : String).data = ['|'] from rfl,
    List.append_assoc, List.singleton_append, List.cons_append]
  rw [splitPipes_step m.id hid]
  simp only [List.nil_append]
  rw [splitPipes_step (intToString m.created) (intToString_no_pipe _)]
  simp only [List.nil_append]
  rw [splitPipes_step (natToString m.sizeBytes) (natToString_no_pipe _)]
  simp only [List.nil_append]
  rw [splitPipes_step (natToString (stateToInt m.state)) (natToString_no_pipe _)]
  simp only [List.nil_append]
  rw [splitPipes_step (natToString m.leaseCount) (natToString_no_pipe _)]
  simp only [List.nil_append]
  rw [splitPipes_step (intToString m.lastAccess) (intToString_no_pipe _)]
  simp only [List.nil_append]
  rw [splitPipes_step (intToString _) (intToString_no_pipe _)]
  simp only [List.nil_append]
  rw [splitPipes_step (natToString m.deleteFailures) (natToString_no_pipe _)]
  simp only [List.nil_append]
  rw [splitPipes_step (intToString _) (intToString_no_pipe _)]
  simp only [List.nil_append]
  rw [splitAux_last (fun c => c = '|') (Escape m.lastError).data
    (fun c hc => decide_eq_false (Escape_no_pipe m.lastError herr c hc))]
  simp

theorem sentinel_roundtrip (o : Option TimePoint) :
    (∀ t ∈ o, 0 ≤ t) →
    (if 0 ≤ (match o with | some t => t | none => (-1 : Int)) then
        some (match o with | some t => t | none => (-1 : Int))
      else none) = o := by
  intro ho
  cases o with
  | none => simp
  | some t => rw [if_pos (ho t rfl)]

/-- C4 (amended): `Deserialize ∘ Serialize` is the identity on every
serialized field — id, created, sizeBytes, state, leaseCount, lastAccess,
the optional `hardDeleteAfter`/`nextRetryAfter` with their `-1` sentinels,
deleteFailures, and a `lastError` that may contain newline, carriage-return
and backslash characters — for records whose `parentId` is absent and
`tags` empty (the wire format has no fields for them), whose id and
lastError contain no `'|'` separator, and whose present optional timestamps
are non-negative (a negative value would collide with the `-1` sentinel). -/
theorem Deserialize_Serialize (m : SnapshotMeta)
    (hpid : m.parentId = none) (htags : m.tags = [])
    (hid : ∀ c ∈ m.id.data, c ≠ '|')
    (herr : ∀ c ∈ m.lastError.data, c ≠ '|')
    (hhd : ∀ t ∈ m.hardDeleteAfter, 0 ≤ t)
    (hnr : ∀ t ∈ m.nextRetryAfter, 0 ≤ t) :
    Deserialize (Serialize m) = some m := by
  unfold Deserialize
  rw [splitPipes_serialize m hid herr]
  dsimp only
  simp only [List.get?, Option.some_bind, stoll_intToString, stoll_natToString]
  try dsimp only
  rw [stateOfInt_stateToInt, Unescape_Escape,
    sentinel_roundtrip m.hardDeleteAfter hhd,
    sentinel_roundtrip m.nextRetryAfter hnr]
  simp only [Int.toNat_natCast]
  rw [← hpid, ← htags]

theorem linePrefix_self_append (p s : String) : linePrefix p (p ++ s) = true := by
  unfold linePrefix
  rw [String.data_append, List.take_left]
  simp

theorem data_STATE_sp : ("STATE " : String).data = ['S','T','A','T','E',' '] := rfl

theorem data_UPSERT_sp :
    ("UPSERT " : String).data = ['U','P','S','E','R','T',' '] := rfl

theorem data_EVENT_sp : ("EVENT " : String).data = ['E','V','E','N','T',' '] := rfl

theorem linePrefix_upsert_state (s : String) :
    linePrefix "UPSERT " ("STATE " ++ s) = false := by
  unfold linePrefix
  rw [String.data_append, data_STATE_sp, data_UPSERT_sp,
    List.take_append_eq_append_take]
  simp

theorem linePrefix_upsert_event (s : String) :
    linePrefix "UPSERT " ("EVENT " ++ s) = false := by
  unfold linePrefix
  rw [String.data_append, data_EVENT_sp, data_UPSERT_sp,
    List.take_append_eq_append_take]
  simp

theorem linePrefix_state_event (s : String) :
    linePrefix "STATE " ("EVENT " ++ s) = false := by
  unfold linePrefix
  rw [String.data_append, data_EVENT_sp, data_STATE_sp,
    List.take_append_eq_append_take]
  simp

theorem strDrop_upsert (s : String) : strDrop ("UPSERT " ++ s) 7 = s := by
  unfold strDrop
  rw [String.data_append, data_UPSERT_sp,
    show (7 : Nat) = (['U','P','S','E','R','T',' '] : List Char).length from rfl,
    List.drop_left]

theorem natToString_no_ws (n : Nat) :
    ∀ c ∈ (natToString n).data, wsChar c = false := by
  intro c hc
  obtain ⟨d, hd, hcd⟩ := natDigitsRevAux_shape (n + 1) n c
    (List.mem_reverse.mp hc)
  rw [hcd]
  exact (digitChar_facts d hd).2.2.2.2.2.2.2.2.2.2.2

theorem natToString_ne_empty (n : Nat) : natToString n ≠ "" := by
  intro h
  have hd : (natToString n).data = [] := by rw [h]
  have : (natDigitsRevAux (n + 1) n).reverse = [] := hd
  rw [List.reverse_eq_nil_iff] at this
  exact natDigitsRevAux_ne_nil n n this

theorem goodId_no_ws (s : String) (h : JournalCatalog.goodId s) :
    ∀ c ∈ s.data, wsChar c = false := by
  intro c hc
  obtain ⟨hne, hchars⟩ := h
  obtain ⟨h1, h2, h3, h4, h5⟩ := hchars c hc
  simp [wsChar, h2, h3, h4, h5]

theorem splitWs_step (a : String) (ha : ∀ c ∈ a.data, wsChar c = false)
    (parts : List String) (cur rest : List Char) :
    splitAux wsChar parts cur (a.data ++ ' ' :: rest) =
      splitAux wsChar (parts ++ [⟨cur ++ a.data⟩]) [] rest := by
  rw [splitAux_nosep wsChar a.data ha parts cur (' ' :: rest)]
  rw [splitAux_sep wsChar parts (cur ++ a.data) ' ' rest (by decide)]

theorem tokensOf_state_line (id : String) (hne : id ≠ "")
    (hws : ∀ c ∈ id.data, wsChar c = false) (a b : Nat) :
    tokensOf ("STATE " ++ (id ++ (" " ++ (natToString a ++ (" " ++ natToString b))))) =
      ["STATE", id, natToString a, natToString b] := by
  unfold tokensOf
  rw [show ("STATE " ++ (id ++ (" " ++ (natToString a ++ (" " ++ natToString b)))) : String)
      = ("STATE" : String) ++ (" " ++ (id ++ (" " ++ (natToString a ++ (" " ++ natToString b)))))
    from rfl]
  simp only [String.data_append, show (" " : String).data = [' '] from rfl,
    List.append_assoc, List.singleton_append]
  rw [splitWs_step "STATE" (by decide)]
  simp only [List.nil_append]
  rw [splitWs_step id hws]
  simp only [List.nil_append]
  rw [splitWs_step (natToString a) (natToString_no_ws a)]
  simp only [List.nil_append]
  rw [splitAux_last wsChar (natToString b).data (natToString_no_ws b)]
  simp only [List.nil_append]
  simp [hne]
  exact ⟨natToString_ne_empty a, natToString_ne_empty b⟩

theorem replayLines_cons (items : List (String × SnapshotMeta))
    (l : String) (ls : List String) :
    replayLines items (l :: ls) =
      match replayLine items l with
      | none => none
      | some j => replayLines j ls := rfl

theorem replayLines_append (l1 l2 : List String) :
    ∀ items items', replayLines items l1 = some items' →
      replayLines items (l1 ++ l2) = replayLines items' l2 := by
  induction l1 with
  | nil =>
      intro items items' h
      have h' : items = items' := by simpa [replayLines] using h
      rw [List.nil_append, h']
  | cons l ls ih =>
      intro items items' h
      rcases hl : replayLine items l with _ | j
      · rw [replayLines_cons, hl] at h
        exact absurd h (by simp)
      · rw [replayLines_cons, hl] at h
        rw [List.cons_append, replayLines_cons, hl]
        dsimp only at h ⊢
        exact ih j items' h

theorem replayLines_singleton (items : List (String × SnapshotMeta))
    (line : String) :
    replayLines items [line] = replayLine items line := by
  unfold replayLines
  cases replayLine items line with
  | none => rfl
  | some j => rfl

theorem Replay_snoc (file : List String) (items : List (String × SnapshotMeta))
    (line : String) (h : Replay file = some items) :
    Replay (file ++ [line]) = replayLine items line := by
  unfold Replay at *
  rw [replayLines_append file [line] [] items h, replayLines_singleton]

theorem replay_upsert_line (items : List (String × SnapshotMeta))
    (m : SnapshotMeta) (hm : goodMeta m) :
    replayLine items ("UPSERT " ++ Serialize m) =
      some (insertItem items m.id m) := by
  obtain ⟨⟨hne, hchars⟩, hpid, htags, herr, hhd, hnr⟩ := hm
  unfold replayLine
  rw [linePrefix_self_append]
  simp only [if_true]
  rw [strDrop_upsert,
    Deserialize_Serialize m hpid htags (fun c hc => (hchars c hc).1) herr hhd hnr]
  rfl

theorem replay_state_line (items : List (String × SnapshotMeta)) (id : String)
    (r : SnapshotMeta) (exp des : SnapshotState)
    (hgid : JournalCatalog.goodId id)
    (hlook : lookupItem items id = some r) :
    replayLine items
        ("STATE " ++ (id ++ (" " ++ (natToString (stateToInt exp) ++
          (" " ++ natToString (stateToInt des)))))) =
      some (insertItem items id { r with state := des }) := by
  unfold replayLine
  rw [linePrefix_upsert_state]
  simp only [Bool.false_eq_true, if_false]
  rw [show ("STATE " ++ (id ++ (" " ++ (natToString (stateToInt exp) ++
      (" " ++ natToString (stateToInt des))))) : String) =
    "STATE " ++ (id ++ (" " ++ (natToString (stateToInt exp) ++
      (" " ++ natToString (stateToInt des))))) from rfl]
  rw [linePrefix_self_append "STATE "]
  simp only [if_true]
  rw [tokensOf_state_line id hgid.1 (goodId_no_ws id hgid)]
  simp only [List.getElem?_cons_zero, List.getElem?_cons_succ,
    Option.getD_some, Option.some_bind]
  rw [stoll_natToString]
  simp only [Option.getD_some]
  rw [hlook]
  rw [stateOfInt_stateToInt]

theorem replay_event_line (items : List (String × SnapshotMeta)) (e : GCEvent) :
    replayLine items
        ("EVENT " ++ (e.snapshotId ++ (" " ++ (e.type ++
          (" " ++ Escape e.details))))) = some items := by
  unfold replayLine
  rw [linePrefix_upsert_event]
  simp only [Bool.false_eq_true, if_false]
  rw [linePrefix_state_event]
  simp only [Bool.false_eq_true, if_false]

theorem string_append_assoc (a b c : String) :
    (a ++ b) ++ c = a ++ (b ++ c) := by
  cases a with
  | mk la =>
      cases b with
      | mk lb =>
          cases c with
          | mk lc =>
              show String.mk ((la ++ lb) ++ lc) = String.mk (la ++ (lb ++ lc))
              rw [List.append_assoc]

theorem replay_state_line_assoc (items : List (String × SnapshotMeta))
    (id : String) (r : SnapshotMeta) (exp des : SnapshotState)
    (hgid : JournalCatalog.goodId id)
    (hlook : lookupItem items id = some r) :
    replayLine items
        ("STATE " ++ id ++ " " ++ natToString (stateToInt exp) ++ " " ++
          natToString (stateToInt des)) =
      some (insertItem items id { r with state := des }) := by
  rw [show ("STATE " ++ id ++ " " ++ natToString (stateToInt exp) ++ " " ++
      natToString (stateToInt des) : String) =
      "STATE " ++ (id ++ (" " ++ (natToString (stateToInt exp) ++
        (" " ++ natToString (stateToInt des))))) from by
    simp only [string_append_assoc]]
  exact replay_state_line items id r exp des hgid hlook

theorem replay_event_line_assoc (items : List (String × SnapshotMeta))
    (e : GCEvent) :
    replayLine items
        ("EVENT " ++ e.snapshotId ++ " " ++ e.type ++ " " ++ Escape e.details) =
      some items := by
  rw [show ("EVENT " ++ e.snapshotId ++ " " ++ e.type ++ " " ++
      Escape e.details : String) =
      "EVENT " ++ (e.snapshotId ++ (" " ++ (e.type ++
        (" " ++ Escape e.details)))) from by
    simp only [string_append_assoc]]
  exact replay_event_line items e

theorem replay_applyOp (st : JState) (op : CatalogOp) (hop : goodOp op)
    (h : Replay st.file = some st.items) :
    Replay (applyOp st op).file = some (applyOp st op).items := by
  cases op with
  | upsert m =>
      show Replay (st.file ++ ["UPSERT " ++ Serialize m]) =
        some (insertItem st.items m.id m)
      rw [Replay_snoc st.file st.items _ h]
      exact replay_upsert_line st.items m hop
  | transition id exp des =>
      have hgid : JournalCatalog.goodId id := hop
      rcases hlook : lookupItem st.items id with _ | r
      · have heq : (JournalCatalog.TransitionState st id exp des).1 = st := by
          unfold JournalCatalog.TransitionState
          rw [hlook]
        show Replay (JournalCatalog.TransitionState st id exp des).1.file =
          some (JournalCatalog.TransitionState st id exp des).1.items
        rw [heq]
        exact h
      · by_cases hstate : r.state = exp
        · have heq : (JournalCatalog.TransitionState st id exp des).1 =
              Append
                { st with items := insertItem st.items id { r with state := des } }
                ("STATE " ++ id ++ " " ++ natToString (stateToInt exp) ++ " " ++
                  natToString (stateToInt des)) := by
            unfold JournalCatalog.TransitionState
            rw [hlook]
            dsimp only
            rw [if_pos hstate]
          show Replay (JournalCatalog.TransitionState st id exp des).1.file =
            some (JournalCatalog.TransitionState st id exp des).1.items
          rw [heq]
          show Replay (st.file ++ [_]) =
            some (insertItem st.items id { r with state := des })
          rw [Replay_snoc st.file st.items _ h]
          exact replay_state_line_assoc st.items id r exp des hgid hlook
        · have heq : (JournalCatalog.TransitionState st id exp des).1 = st := by
            unfold JournalCatalog.TransitionState
            rw [hlook]
            dsimp only
            rw [if_neg hstate]
          show Replay (JournalCatalog.TransitionState st id exp des).1.file =
            some (JournalCatalog.TransitionState st id exp des).1.items
          rw [heq]
          exact h
  | event e =>
      show Replay (st.file ++ [_]) = some st.items
      rw [Replay_snoc st.file st.items _ h]
      exact replay_event_line_assoc st.items e

theorem replay_applyOps (ops : List CatalogOp) :
    (∀ op ∈ ops, goodOp op) → ∀ st : JState,
      Replay st.file = some st.items →
      Replay (applyOps st ops).file = some (applyOps st ops).items := by
  induction ops with
  | nil => intro _ st h; exact h
  | cons op ops ih =>
      intro hops st h
      show Replay (applyOps (applyOp st op) ops).file = _
      exact ih (fun o ho => hops o (List.mem_cons_of_mem op ho)) (applyOp st op)
        (replay_applyOp st op (hops op (List.mem_cons_self op ops)) h)

/-- C3 (amended): starting from a fresh journal catalog, for every sequence
of `Upsert` / `TransitionState` / `RecordEvent` operations whose records are
representable on the wire — ids nonempty and free of the pipe separator,
whitespace and newlines; `parentId` absent and `tags` empty (the wire
format has no fields for them); `lastError` free of the pipe separator;
present optional timestamps non-negative; event ids and types free of
newlines — replaying the journal file reconstructs exactly the in-memory
`(id → record)` map. -/
theorem replay_reconstructs_map (ops : List CatalogOp)
    (hops : ∀ op ∈ ops, goodOp op) :
    Replay (applyOps initialJState ops).file =
      some (applyOps initialJState ops).items :=
  replay_applyOps ops hops initialJState rfl

/-- C3 witness: an upsert, a successful CAS transition, an audit event with
newline-bearing details, and an overwriting upsert replay exactly. -/
theorem replay_reconstructs_map_witness :
    (∀ op ∈ goodOpsExample, goodOp op) ∧
    Replay (applyOps initialJState goodOpsExample).file =
      some (applyOps initialJState goodOpsExample).items :=
  ⟨by decide, replay_reconstructs_map goodOpsExample (by decide)⟩

/-- C4 witness: a record exercising every serialized field, with
`lastError` containing newline, backslash and carriage-return, negative
`created`, and a present `hardDeleteAfter` alongside an absent
`nextRetryAfter`, round-trips exactly. -/
theorem Deserialize_Serialize_witness :
    (roundtripRec.parentId = none ∧ roundtripRec.tags = [] ∧
      (∀ c ∈ roundtripRec.id.data, c ≠ '|') ∧
      (∀ c ∈ roundtripRec.lastError.data, c ≠ '|') ∧
      (∀ t ∈ roundtripRec.hardDeleteAfter, 0 ≤ t) ∧
      (∀ t ∈ roundtripRec.nextRetryAfter, 0 ≤ t)) ∧
    Deserialize (Serialize roundtripRec) = some roundtripRec :=
  ⟨⟨rfl, rfl, by decide, by decide, by decide, by decide⟩,
    Deserialize_Serialize roundtripRec rfl rfl (by decide) (by decide)
      (by decide) (by decide)⟩
